import Mathlib

/-!
# myWebsite: upload pipeline and credential lifecycle

A shallow embedding of `src/server.js`, `src/routes/auth.js` and
`src/models/User.js`.  Handlers become pure functions over an explicit
file-system state, an explicit user table and an explicit clock; the
libraries the handlers call (`path`, `multer`, `bcryptjs`, `jsonwebtoken`,
the SQL table) are modelled by the small definitions of the first sections.
-/

namespace MyWebsite

/-! ## JavaScript strings -/

/-- Number of UTF-16 code units of one character, the unit JavaScript counts
in `s.length`. -/
def utf16Units (c : Char) : Nat :=
  if c.toNat < 65536 then 1 else 2

/-- JavaScript `s.length`: the number of UTF-16 code units of `s`. -/
def jsLength (s : String) : Nat :=
  (s.data.map utf16Units).sum

/-- JavaScript truthiness of a value that is either absent or a string:
`undefined` and the empty string are falsy. -/
def truthy : Option String → Bool
  | none => false
  | some s => !(s.data.isEmpty)

/-- A value of a parsed JSON body field, to the detail a handler can tell
apart: absent, `null`, a boolean, a number (by its integer value), a string, or
an array or object (whose contents no handler here reads). -/
inductive JsValue where
  | undefined
  | null
  | bool (b : Bool)
  | number (n : Int)
  | string (s : String)
  | object
  deriving DecidableEq, Repr

/-- JavaScript truthiness: `undefined`, `null`, `false`, `0` and the empty
string are falsy, everything else is truthy. -/
def JsValue.truthy : JsValue → Bool
  | .undefined => false
  | .null => false
  | .bool b => b
  | .number n => n != 0
  | .string s => !(s.data.isEmpty)
  | .object => true

/-- JavaScript `typeof`. -/
def JsValue.typeof : JsValue → String
  | .undefined => "undefined"
  | .null => "object"
  | .bool _ => "boolean"
  | .number _ => "number"
  | .string _ => "string"
  | .object => "object"

/-- Pieces of a character list between the occurrences of `sep`:
`s.split(sep)` for a one-character separator (`"".split(" ")` is `[""]`). -/
def splitChars (sep : Char) : List Char → List (List Char)
  | [] => [[]]
  | c :: cs =>
    if c = sep then [] :: splitChars sep cs
    else
      match splitChars sep cs with
      | [] => [[c]]
      | p :: ps => (c :: p) :: ps

/-- JavaScript `s.split(sep)` for a one-character separator. -/
def jsSplit (sep : Char) (s : String) : List String :=
  (splitChars sep s.data).map String.mk

/-! ## Node `path` (POSIX flavour) -/

/-- The last portion of a path, reversed: trailing separators are ignored and
the portion stops at the separator before it. -/
def lastPortionRev (p : List Char) : List Char :=
  (p.reverse.dropWhile (fun c => c == '/')).takeWhile (fun c => c != '/')

/-- The last portion of a path (`path.basename(p)`). -/
def lastPortion (p : List Char) : List Char :=
  (lastPortionRev p).reverse

/-- Node `path.extname` on characters: from the last `.` of the last portion to
its end; empty when the portion has no `.`, when its only `.` is its first
character, or when the portion is `..`. -/
def extnameChars (p : List Char) : List Char :=
  let rcomp := lastPortionRev p
  match rcomp.dropWhile (fun c => c != '.') with
  | [] => []
  | [_] => []
  | _ :: _ :: _ =>
    if rcomp = ['.', '.'] then [] else '.' :: (rcomp.takeWhile (fun c => c != '.')).reverse

/-- Node `path.basename(p, suffix)` on characters.  Without a usable suffix it
is the last portion.  With one, the suffix is removed from the end of the last
portion when it is a proper ending of it; a suffix equal to the whole path gives
the empty string, and a last portion that is itself a proper ending of the
suffix gives the path from that portion on (trailing separators included), as
Node's scanning loop leaves it. -/
def basenameChars (p suffix : List Char) : List Char :=
  let comp := lastPortion p
  if suffix ≠ [] ∧ suffix.length ≤ p.length then
    if suffix = p then []
    else if suffix.length ≤ comp.length then
      if comp.drop (comp.length - suffix.length) = suffix ∧ suffix.length < comp.length then
        comp.take (comp.length - suffix.length)
      else comp
    else if suffix.drop (suffix.length - comp.length) = comp then
      comp ++ p.reverse.takeWhile (fun c => c == '/')
    else comp
  else comp

/-- Node `path.extname`. -/
def extname (p : String) : String :=
  ⟨extnameChars p.data⟩

/-- Node `path.basename(p, suffix)`. -/
def basename (p suffix : String) : String :=
  ⟨basenameChars p.data suffix.data⟩

/-- One step of Node's `normalizeString`: the stack holds the segments kept so
far, last segment first.  Empty segments and `.` are dropped, `..` removes the
last kept segment (or is kept when nothing can be removed and the path is
relative), any other segment is kept. -/
def normStep (allowAboveRoot : Bool) (stack : List (List Char)) (seg : List Char) :
    List (List Char) :=
  if seg = [] ∨ seg = ['.'] then stack
  else if seg = ['.', '.'] then
    match stack with
    | [] => if allowAboveRoot then [seg] else []
    | top :: rest =>
      if top = ['.', '.'] then (if allowAboveRoot then seg :: stack else stack) else rest
  else seg :: stack

/-- Segments kept by Node's `normalizeString`, in path order. -/
def normSegments (allowAboveRoot : Bool) (segs : List (List Char)) : List (List Char) :=
  (segs.foldl (normStep allowAboveRoot) []).reverse

/-- Segments joined by `/`. -/
def joinSlash : List (List Char) → List Char
  | [] => []
  | [s] => s
  | s :: t :: rest => s ++ '/' :: joinSlash (t :: rest)

/-- Node `path.normalize` (POSIX) on characters. -/
def normalizeChars (p : List Char) : List Char :=
  if p = [] then ['.']
  else
    let isAbsolute := p.head? = some '/'
    let trailingSeparator := p.getLast? = some '/'
    let body := joinSlash (normSegments (!decide isAbsolute) (splitChars '/' p))
    if body = [] then
      if isAbsolute then ['/'] else if trailingSeparator then ['.', '/'] else ['.']
    else
      let body := if trailingSeparator then body ++ ['/'] else body
      if isAbsolute then '/' :: body else body

/-- Node `path.join` (POSIX) on characters: the non-empty arguments are joined
by `/` and the result is normalised; no non-empty argument gives `.`. -/
def joinChars (args : List (List Char)) : List Char :=
  match args.filter (fun a => !a.isEmpty) with
  | [] => ['.']
  | parts => normalizeChars (joinSlash parts)

/-- Node `path.join`. -/
def pathJoin (args : List String) : String :=
  ⟨joinChars (args.map String.data)⟩

/-! ## Responses -/

/-- The user projection returned by a successful login: id, username and
email, and nothing else of the stored row. -/
structure UserProjection where
  id : Nat
  username : String
  email : String
  deriving DecidableEq, Repr

/-- The `file` object of a successful upload response. -/
structure FileInfo where
  originalName : String
  filename : String
  category : String
  size : Nat
  mimetype : String
  url : String
  deriving DecidableEq, Repr

/-- JSON bodies the handlers send. -/
inductive Body where
  /-- A body with the fields `success` and `message`. -/
  | message (success : Bool) (message : String)
  /-- A body with the fields `success` and `error`. -/
  | error (success : Bool) (error : String)
  /-- A body with the fields `success`, `message`, `token` and `user`. -/
  | login (success : Bool) (message : String) (token : String) (user : UserProjection)
  /-- A body with the fields `success`, `message` and `file`. -/
  | upload (success : Bool) (message : String) (file : FileInfo)
  deriving DecidableEq, Repr

/-- An HTTP response: status code and JSON body (`res.json` without
`res.status` answers 200). -/
structure Response where
  status : Nat
  body : Body
  deriving DecidableEq, Repr

/-! ## The user table and `models/User.js` -/

/-- A row of the `users` table. -/
structure UserRow where
  id : Nat
  username : String
  email : String
  password : String
  created_at : Nat
  deriving DecidableEq, Repr

/-- Modelled from the spec: the `users` table behind `config/database.js`,
whose schema is not part of the sources.  The store offers an atomic
single-row insert that hands out a fresh id and an exact-match lookup by
username; statements do not fail. -/
structure Db where
  rows : List UserRow
  nextId : Nat
  deriving DecidableEq, Repr

/-- The rows selected by `SELECT * FROM users WHERE username = ?`. -/
def Db.selectByUsername (db : Db) (username : String) : List UserRow :=
  db.rows.filter (fun r => r.username = username)

/-- The table after `INSERT INTO users (username, email, password) VALUES (?, ?, ?)`
at time `now`, with the id given to the new row. -/
def Db.insertUser (db : Db) (now : Nat) (username email password : String) : Db × Nat :=
  let row : UserRow := ⟨db.nextId, username, email, password, now⟩
  (⟨db.rows ++ [row], db.nextId + 1⟩, db.nextId)

/-- The two functions of `bcryptjs` the model uses: `hash` with a cost factor
and the salt drawn for this call, and `compare`. -/
structure Bcrypt where
  hash : (rounds : Nat) → (salt : Nat) → (plain : String) → String
  compare : (plain : String) → (hashed : String) → Bool

/-- The function `User.create`: hash the password with cost 10, insert the row,
return the new id. -/
def User.create (bc : Bcrypt) (salt now : Nat) (db : Db) (username email password : String) :
    Db × Nat :=
  let hashedPassword := bc.hash 10 salt password
  db.insertUser now username email hashedPassword

/-- The function `User.findByUsername`: the first selected row, if any. -/
def User.findByUsername (db : Db) (username : String) : Option UserRow :=
  (db.selectByUsername username).head?

/-- The awaited call `bcrypt.compare(s, hash)` with a stored hash: `bcryptjs`
rejects with `Illegal arguments` when `s` is not a string, and otherwise
resolves to the comparison. -/
def bcryptCompare (bc : Bcrypt) (s : JsValue) (hash : String) : Except String Bool :=
  match s with
  | .string plain => .ok (bc.compare plain hash)
  | other => .error ("Illegal arguments: " ++ other.typeof ++ ", string")

/-- The function `User.validatePassword`, awaited: the comparison, or the
error `bcrypt.compare` rejects with. -/
def User.validatePassword (bc : Bcrypt) (plainPassword : JsValue) (hashedPassword : String) :
    Except String Bool :=
  bcryptCompare bc plainPassword hashedPassword

/-! ## `jsonwebtoken` -/

/-- The payload of a token issued at login, with the two registered claims
`jsonwebtoken` adds (seconds since the epoch). -/
structure Claims where
  userId : Nat
  username : String
  iat : Nat
  exp : Nat
  deriving DecidableEq, Repr

/-- A decoded token: its payload and its signature. -/
structure SignedToken where
  claims : Claims
  signature : String
  deriving DecidableEq, Repr

/-- The parts of `jsonwebtoken` that are not spelled out: the keyed signature
of a payload and the compact serialisation of a token with its parser. -/
structure JwtLib where
  hmac : (secret : String) → Claims → String
  encode : SignedToken → String
  decode : String → Option SignedToken

/-- The errors `jwt.verify` throws. -/
inductive JwtError where
  | jsonWebTokenError (message : String)
  | tokenExpiredError
  deriving DecidableEq, Repr

/-- The clock `jsonwebtoken` reads: `Math.floor(Date.now() / 1000)`. -/
def clockTimestamp (nowMs : Nat) : Nat :=
  nowMs / 1000

/-- The span `expiresIn: "24h"` in seconds. -/
def expiresIn24h : Nat :=
  24 * 60 * 60

/-- The payload `jwt.sign` builds from `{ userId, username }` with
`expiresIn: "24h"` at `Date.now() = nowMs`: `iat` is the clock and `exp` is
`iat` plus the span. -/
def issueClaims (nowMs : Nat) (userId : Nat) (username : String) : Claims :=
  let iat := clockTimestamp nowMs
  { userId := userId, username := username, iat := iat, exp := iat + expiresIn24h }

/-- A payload together with its signature under `secret`. -/
def signClaims (lib : JwtLib) (secret : String) (claims : Claims) : SignedToken :=
  { claims := claims, signature := lib.hmac secret claims }

/-- The call `jwt.sign({ userId, username }, secret, { expiresIn: "24h" })` at
`Date.now() = nowMs`: a missing or empty secret throws; otherwise the payload
is signed and serialised. -/
def jwtSign (lib : JwtLib) (nowMs : Nat) (userId : Nat) (username : String)
    (secret : Option String) : Except String String :=
  if !truthy secret then .error "secretOrPrivateKey must have a value"
  else .ok (lib.encode (signClaims lib (secret.getD "") (issueClaims nowMs userId username)))

/-- The call `jwt.verify(token, secret)` at `Date.now() = nowMs`: the token
must be present and well formed, the secret present, the signature the one the
secret gives, and the clock strictly before `exp`. -/
def jwtVerify (lib : JwtLib) (nowMs : Nat) (token : String) (secret : Option String) :
    Except JwtError Claims :=
  if token = "" then .error (.jsonWebTokenError "jwt must be provided")
  else
    match lib.decode token with
    | none => .error (.jsonWebTokenError "jwt malformed")
    | some t =>
      if !truthy secret then .error (.jsonWebTokenError "secret or public key must be provided")
      else if t.signature ≠ lib.hmac (secret.getD "") t.claims then
        .error (.jsonWebTokenError "invalid signature")
      else if clockTimestamp nowMs ≥ t.claims.exp then .error .tokenExpiredError
      else .ok t.claims

/-! ## `routes/auth.js` -/

/-- The body of `POST /register`: each field is absent or a string. -/
structure RegisterBody where
  username : Option String
  email : Option String
  password : Option String
  deriving DecidableEq, Repr

/-- What a registration request leaves behind: the response, the user table,
and the plaintexts that were handed to `bcrypt.hash`. -/
structure RegisterResult where
  response : Response
  db : Db
  hashed : List String
  deriving DecidableEq, Repr

/-- The response `400 Please fill all fields`. -/
def fillAllFields : Response :=
  ⟨400, .message false "Please fill all fields"⟩

/-- The response `400 Password must be at least 6 characters`. -/
def passwordTooShort : Response :=
  ⟨400, .message false "Password must be at least 6 characters"⟩

/-- The response `400 Username already taken`. -/
def usernameTaken : Response :=
  ⟨400, .message false "Username already taken"⟩

/-- The response `201 Account created successfully!`. -/
def accountCreated : Response :=
  ⟨201, .message true "Account created successfully!"⟩

/-- The handler of `POST /register`, with the salt `bcrypt` draws and the time
of the insert. -/
def register (bc : Bcrypt) (salt now : Nat) (db : Db) (body : RegisterBody) : RegisterResult :=
  if !truthy body.username || !truthy body.email || !truthy body.password then
    ⟨fillAllFields, db, []⟩
  else
    let username := body.username.getD ""
    let email := body.email.getD ""
    let password := body.password.getD ""
    if jsLength password < 6 then ⟨passwordTooShort, db, []⟩
    else
      match User.findByUsername db username with
      | some _ => ⟨usernameTaken, db, []⟩
      | none =>
        let created := User.create bc salt now db username email password
        ⟨accountCreated, created.1, [password]⟩

/-- The body of `POST /login`: the username is absent or a string (the
lookup is modelled for strings), the password is any JSON value. -/
structure LoginBody where
  username : Option String
  password : JsValue
  deriving DecidableEq, Repr

/-- The response `400 Please enter username and password`. -/
def enterCredentials : Response :=
  ⟨400, .message false "Please enter username and password"⟩

/-- The response `401 Invalid username or password`. -/
def invalidCredentials : Response :=
  ⟨401, .message false "Invalid username or password"⟩

/-- The response `500 Something went wrong` of the `catch` blocks. -/
def somethingWentWrong : Response :=
  ⟨500, .message false "Something went wrong"⟩

/-- The handler of `POST /login` at `Date.now() = nowMs`, with the value of
`process.env.JWT_SECRET`.  Whatever is thrown inside the `try` block, by
`bcrypt.compare` or by `jwt.sign`, is answered by the `catch` block. -/
def login (bc : Bcrypt) (lib : JwtLib) (secret : Option String) (nowMs : Nat) (db : Db)
    (body : LoginBody) : Response :=
  if !truthy body.username || !body.password.truthy then enterCredentials
  else
    let username := body.username.getD ""
    let password := body.password
    match User.findByUsername db username with
    | none => invalidCredentials
    | some user =>
      match User.validatePassword bc password user.password with
      | .error _ => somethingWentWrong
      | .ok isValidPassword =>
        if !isValidPassword then invalidCredentials
        else
          match jwtSign lib nowMs user.id user.username secret with
          | .error _ => somethingWentWrong
          | .ok token =>
            ⟨200, .login true "Login successful!" token
              { id := user.id, username := user.username, email := user.email }⟩

/-- What `requireAuth` does with a request: call `next()` with `req.user` set,
or answer itself. -/
inductive AuthOutcome where
  | next (user : Claims)
  | respond (response : Response)
  deriving DecidableEq, Repr

/-- The response `401 You must be logged in`. -/
def mustBeLoggedIn : Response :=
  ⟨401, .message false "You must be logged in"⟩

/-- The response `401 Invalid token`. -/
def invalidToken : Response :=
  ⟨401, .message false "Invalid token"⟩

/-- The expression `req.headers["authorization"]?.split(" ")[1]`. -/
def headerToken (authorization : Option String) : Option String :=
  (authorization.map (jsSplit ' ')).bind (fun parts => parts[1]?)

/-- The middleware `requireAuth`. -/
def requireAuth (lib : JwtLib) (secret : Option String) (nowMs : Nat)
    (authorization : Option String) : AuthOutcome :=
  let token := headerToken authorization
  if !truthy token then .respond mustBeLoggedIn
  else
    match jwtVerify lib nowMs (token.getD "") secret with
    | .ok decoded => .next decoded
    | .error _ => .respond invalidToken

/-! ## The file system -/

/-- The part of the file system the server touches: the directories that
exist and the regular files with their bytes, both by path. -/
structure Fs where
  dirs : List String
  files : List (String × List Nat)
  deriving DecidableEq, Repr

/-- The call `fs.existsSync(p)`. -/
def Fs.existsSync (fs : Fs) (p : String) : Bool :=
  fs.dirs.contains p || fs.files.any (fun f => f.1 = p)

/-- The call `fs.mkdirSync(p, { recursive: true })`. -/
def Fs.mkdirSync (fs : Fs) (p : String) : Fs :=
  ⟨p :: fs.dirs, fs.files⟩

/-- Writing `content` to the file at `p`, replacing what was there. -/
def Fs.writeFile (fs : Fs) (p : String) (content : List Nat) : Fs :=
  ⟨fs.dirs, (p, content) :: fs.files.filter (fun f => f.1 ≠ p)⟩

/-- The call `fs.renameSync(src, dst)`: throws when `src` is not a file,
otherwise the file is at `dst` afterwards and no longer at `src`. -/
def Fs.renameSync (fs : Fs) (src dst : String) : Except String Fs :=
  match fs.files.find? (fun f => f.1 = src) with
  | none => .error ("ENOENT: no such file or directory, rename " ++ src ++ " -> " ++ dst)
  | some f => .ok ⟨fs.dirs, (dst, f.2) :: fs.files.filter (fun g => g.1 ≠ src ∧ g.1 ≠ dst)⟩

/-- The name of `path` inside `dir` when `path` is a direct child of `dir`. -/
def childName (dir path : String) : Option String :=
  let pre := dir.data ++ ['/']
  let rest := path.data.drop pre.length
  if path.data.take pre.length = pre ∧ rest ≠ [] ∧ '/' ∉ rest then some ⟨rest⟩ else none

/-- The names of the files directly inside `dir` (`fs.readdir`). -/
def Fs.readdir (fs : Fs) (dir : String) : List String :=
  fs.files.filterMap (fun f => childName dir f.1)

/-! ## `server.js`: the upload route -/

/-- The file part of a multipart upload as the client declares it. -/
structure FilePart where
  fieldname : String
  originalname : String
  mimetype : String
  content : List Nat
  deriving DecidableEq, Repr

/-- A `POST /api/upload` request: at most one file part and the text field
`category`, absent or a string. -/
structure UploadRequest where
  file : Option FilePart
  category : Option String
  deriving DecidableEq, Repr

/-- The object `req.file` multer leaves after staging. -/
structure StagedFile where
  originalname : String
  mimetype : String
  destination : String
  filename : String
  path : String
  size : Nat
  deriving DecidableEq, Repr

/-- What reaches the error-handling middleware: a `multer.MulterError` with
its code, or a plain `Error` with its message. -/
inductive UploadError where
  | multerError (code : String)
  | error (message : String)
  deriving DecidableEq, Repr

/-- The list `allowedMimeTypes` of `fileFilter`. -/
def allowedMimeTypes : List String :=
  ["image/jpeg", "image/png", "image/gif",
   "application/pdf",
   "application/msword",
   "application/vnd.openxmlformats-officedocument.wordprocessingml.document",
   "text/plain",
   "application/zip", "application/x-rar-compressed",
   "video/mp4", "audio/mpeg"]

/-- The limit `limits.fileSize`. -/
def fileSizeLimit : Nat :=
  10 * 1024 * 1024

/-- The callback `fileFilter`: accept an allowed type, otherwise pass
`new Error("File type not allowed")`. -/
def fileFilter (mimetype : String) : Except UploadError Bool :=
  if allowedMimeTypes.contains mimetype then .ok true
  else .error (.error "File type not allowed")

/-- The callback `storage.destination`: the temp directory under
`__dirname/public`, created when absent. -/
def storageDestination (dirname : String) (fs : Fs) : Fs × String :=
  let tempPath := pathJoin [dirname, "public", "temp"]
  let fs1 := if !fs.existsSync tempPath then fs.mkdirSync tempPath else fs
  (fs1, tempPath)

/-- The callback `storage.filename` at `Date.now() = now`. -/
def storageFilename (now : Nat) (originalname : String) : String :=
  let timestamp := now
  let extension := extname originalname
  let baseName := basename originalname extension
  baseName ++ "_" ++ toString timestamp ++ extension

/-- The middleware `upload.single("filename")`: no file part leaves `req.file`
unset; a part under another field name is an unexpected file; the file filter
runs before anything is written; an accepted file is written to the temp
directory under its assigned name, and a file over the size limit is removed
again and reported as `LIMIT_FILE_SIZE`. -/
def uploadSingle (dirname : String) (now : Nat) (fs : Fs) (req : UploadRequest) :
    Fs × Except UploadError (Option StagedFile) :=
  match req.file with
  | none => (fs, .ok none)
  | some part =>
    if part.fieldname ≠ "filename" then (fs, .error (.multerError "LIMIT_UNEXPECTED_FILE"))
    else
      match fileFilter part.mimetype with
      | .error e => (fs, .error e)
      | .ok false => (fs, .ok none)
      | .ok true =>
        let staged := storageDestination dirname fs
        let filename := storageFilename now part.originalname
        let path := pathJoin [staged.2, filename]
        if part.content.length > fileSizeLimit then
          (staged.1, .error (.multerError "LIMIT_FILE_SIZE"))
        else
          (staged.1.writeFile path part.content,
            .ok (some ⟨part.originalname, part.mimetype, staged.2, filename, path,
              part.content.length⟩))

/-- The categories the upload handler accepts. -/
def validCategories : List String :=
  ["units", "lessons", "tests"]

/-- The response `400 No file was selected`. -/
def noFileSelected : Response :=
  ⟨400, .error false "No file was selected"⟩

/-- The response `400 No category was selected`. -/
def noCategorySelected : Response :=
  ⟨400, .error false "No category was selected"⟩

/-- The route handler of `POST /api/upload`, run after multer. -/
def uploadHandler (dirname : String) (fs : Fs) (file : Option StagedFile)
    (category : Option String) : Fs × Response :=
  match file with
  | none => (fs, noFileSelected)
  | some file =>
    if !truthy category || !validCategories.contains (category.getD "") then
      (fs, noCategorySelected)
    else
      let category := category.getD ""
      let tempFilePath := file.path
      let finalDirectory := pathJoin [dirname, "public", category]
      let finalFilePath := pathJoin [finalDirectory, file.filename]
      let fs1 := if !fs.existsSync finalDirectory then fs.mkdirSync finalDirectory else fs
      match fs1.renameSync tempFilePath finalFilePath with
      | .error msg => (fs1, ⟨500, .error false ("Upload failed: " ++ msg)⟩)
      | .ok fs2 =>
        (fs2, ⟨200, .upload true "File uploaded successfully"
          ⟨file.originalname, file.filename, category, file.size, file.mimetype,
            "/" ++ category ++ "/" ++ file.filename⟩⟩)

/-- The error-handling middleware at the end of `server.js`. -/
def errorMiddleware : UploadError → Response
  | .multerError code =>
    if code = "LIMIT_FILE_SIZE" then ⟨400, .error false "File too large. Maximum size is 10MB."⟩
    else ⟨400, .error false "Upload error"⟩
  | .error _ => ⟨500, .error false "Server error"⟩

/-- The whole of `POST /api/upload`: multer, then the handler, with multer's
errors going to the error-handling middleware. -/
def postUpload (dirname : String) (now : Nat) (fs : Fs) (req : UploadRequest) : Fs × Response :=
  match uploadSingle dirname now fs req with
  | (fs1, .error e) => (fs1, errorMiddleware e)
  | (fs1, .ok file) => uploadHandler dirname fs1 file req.category

/-- A registration response is a validation error when it is one of the two
400 responses of the field checks. -/
def isValidationError (r : Response) : Prop :=
  r.status = 400 ∧ (r = fillAllFields ∨ r = passwordTooShort)

/-- A field is missing or empty. -/
def missingOrEmpty (field : Option String) : Prop :=
  field = none ∨ field = some ""

/-- The words of the Authorization header as the specification names them:
the maximal runs of characters that are not whitespace. -/
def whitespaceTokens (header : String) : List String :=
  ((splitChars ' ' (header.data.map (fun c => if c.isWhitespace then ' ' else c))).filter
    (fun w => !w.isEmpty)).map String.mk

/-- The second whitespace-separated token of the Authorization header, if the
header is present and has one. -/
def secondWhitespaceToken (authorization : Option String) : Option String :=
  (authorization.map whitespaceTokens).bind (fun ws => ws[1]?)

/-- The header `Bearer<TAB>T`: scheme and token separated by a tab. -/
def tabSeparatedHeader : String :=
  "Bearer" ++ String.singleton (Char.ofNat 9) ++ "T"

/-- The header is a scheme without spaces, one space, and then `token`,
which has no space in it and either ends the header or is followed by a space:
`token` is the second piece of the header split at each space character. -/
def secondSpacePiece (header token : String) : Prop :=
  ∃ scheme : String, ' ' ∉ scheme.data ∧ ' ' ∉ token.data
    ∧ (header = scheme ++ " " ++ token ∨ ∃ rest : String, header = scheme ++ " " ++ token ++ " " ++ rest)

/-- A path segment that names an entry: not empty, not `.`, not `..`, and
without a separator in it. -/
def OrdinarySegment (seg : List Char) : Prop :=
  seg ≠ [] ∧ seg ≠ ['.'] ∧ seg ≠ ['.', '.'] ∧ '/' ∉ seg

/-- The shape of the stack `normStep` maintains (last segment first): entry
names, above possibly a run of `..` at the start of a relative path. -/
def NormalStack (allowAboveRoot : Bool) : List (List Char) → Prop
  | [] => True
  | seg :: rest =>
    NormalStack allowAboveRoot rest
      ∧ ((seg ≠ [] ∧ seg ≠ ['.'] ∧ seg ≠ ['.', '.'])
        ∨ (seg = ['.', '.'] ∧ allowAboveRoot = true
            ∧ (rest = [] ∨ rest.head? = some ['.', '.'])))

/-- The rendering of kept segments by `path.normalize`: joined by `/`, after
a leading `/` for an absolute path. -/
def renderPath (isAbsolute : Bool) (segs : List (List Char)) : List Char :=
  if isAbsolute then '/' :: joinSlash segs else joinSlash segs

/-! ## Sample collaborators -/

/-- A small stand-in for `bcryptjs`: the hash tags the plaintext, and
`compare` recomputes the tag. -/
def sampleBcrypt : Bcrypt :=
  ⟨fun _ _ plain => "$2a$" ++ plain, fun plain hashed => hashed == "$2a$" ++ plain⟩

/-- The payload of the sample token: user 1, `alice`, issued at second
1700000000. -/
def sampleClaims : Claims :=
  ⟨1, "alice", 1700000000, 1700086400⟩

/-- A small stand-in for `jsonwebtoken`: one token, serialised as `T`. -/
def sampleJwt : JwtLib :=
  ⟨fun secret claims => secret ++ ":" ++ claims.username,
   fun _ => "T",
   fun s => if s = "T" then some ⟨sampleClaims, "k:alice"⟩ else none⟩

/-- A user table holding the single user `alice`. -/
def sampleDb : Db :=
  ⟨[⟨1, "alice", "a@x.com", "$2a$secret1", 0⟩], 2⟩

/-! ## Basic facts -/

theorem truthy_some_iff (s : String) : truthy (some s) = true ↔ s ≠ "" := by
  cases s with
  | mk data =>
    cases data with
    | nil => simp [truthy]
    | cons c cs =>
      simp only [truthy, List.isEmpty_cons, Bool.not_false, true_iff]
      intro h
      have := congrArg String.data h
      simp at this

theorem truthy_some_of_ne {s : String} (h : s ≠ "") : truthy (some s) = true :=
  (truthy_some_iff s).2 h

theorem truthy_none : truthy none = false := rfl

theorem truthy_empty : truthy (some "") = false := by
  decide

theorem jsLength_empty : jsLength "" = 0 := by
  decide

theorem ne_empty_of_jsLength {p : String} (h : 6 ≤ jsLength p) : p ≠ "" := by
  intro hp
  rw [hp, jsLength_empty] at h
  omega

/-! ## Login -/

theorem truthy_string (s : String) : (JsValue.string s).truthy = truthy (some s) := rfl

theorem login_of_unknown_user (bc : Bcrypt) (lib : JwtLib) (secret : Option String)
    (nowMs : Nat) (db : Db) (u : String) (password : JsValue)
    (hu : u ≠ "") (hp : password.truthy = true)
    (habsent : User.findByUsername db u = none) :
    login bc lib secret nowMs db ⟨some u, password⟩ = invalidCredentials := by
  simp [login, truthy_some_of_ne hu, hp, habsent]

theorem login_of_known_user (bc : Bcrypt) (lib : JwtLib) (secret : Option String)
    (nowMs : Nat) (db : Db) (u : String) (password : JsValue) (row : UserRow)
    (hu : u ≠ "") (hp : password.truthy = true)
    (hfound : User.findByUsername db u = some row) :
    login bc lib secret nowMs db ⟨some u, password⟩
      = match User.validatePassword bc password row.password with
        | .error _ => somethingWentWrong
        | .ok isValidPassword =>
          if !isValidPassword then invalidCredentials
          else
            match jwtSign lib nowMs row.id row.username secret with
            | .error _ => somethingWentWrong
            | .ok token =>
              ⟨200, .login true "Login successful!" token ⟨row.id, row.username, row.email⟩⟩ := by
  simp [login, truthy_some_of_ne hu, hp, hfound]

/-- C3: for a login request with a non-empty username and a truthy password,
an unknown username is answered 401 `Invalid username or password`; a known
username with a string password that does not verify is answered with the same
401 response; but a known username with a truthy password that is not a string
(a JSON number, `true`, an array, an object) is answered 500 `Something went
wrong`, because `bcrypt.compare` throws, so there the response tells a known
username from an unknown one. -/
theorem login_unknown_user_vs_wrong_password (bc : Bcrypt) (lib : JwtLib)
    (secret : Option String) (nowMs : Nat) (db₁ db₂ : Db) (u₁ u₂ : String)
    (password : JsValue) (row : UserRow)
    (hu₁ : u₁ ≠ "") (hu₂ : u₂ ≠ "") (hp : password.truthy = true)
    (habsent : User.findByUsername db₁ u₁ = none)
    (hfound : User.findByUsername db₂ u₂ = some row) :
    login bc lib secret nowMs db₁ ⟨some u₁, password⟩
        = ⟨401, .message false "Invalid username or password"⟩
      ∧ (∀ p, password = .string p → bc.compare p row.password = false →
          login bc lib secret nowMs db₂ ⟨some u₂, password⟩
            = login bc lib secret nowMs db₁ ⟨some u₁, password⟩)
      ∧ ((∀ p, password ≠ .string p) →
          login bc lib secret nowMs db₂ ⟨some u₂, password⟩
              = ⟨500, .message false "Something went wrong"⟩
            ∧ login bc lib secret nowMs db₂ ⟨some u₂, password⟩
              ≠ login bc lib secret nowMs db₁ ⟨some u₁, password⟩) := by
  have h₁ := login_of_unknown_user bc lib secret nowMs db₁ u₁ password hu₁ hp habsent
  have h₂ := login_of_known_user bc lib secret nowMs db₂ u₂ password row hu₂ hp hfound
  refine ⟨h₁, ?_, ?_⟩
  · intro p hpw hwrong
    rw [h₁, h₂, hpw]
    simp [User.validatePassword, bcryptCompare, hwrong]
  · intro hns
    have h500 : login bc lib secret nowMs db₂ ⟨some u₂, password⟩ = somethingWentWrong := by
      rw [h₂]
      cases password with
      | string p => exact absurd rfl (hns p)
      | undefined => rfl
      | null => rfl
      | bool b => rfl
      | number n => rfl
      | object => rfl
    refine ⟨h500, ?_⟩
    rw [h500, h₁]
    decide

theorem login_unknown_user_vs_wrong_password_witness :
    login sampleBcrypt sampleJwt (some "k") 0 sampleDb ⟨some "bob", .number 1234567⟩
        = ⟨401, .message false "Invalid username or password"⟩
      ∧ login sampleBcrypt sampleJwt (some "k") 0 sampleDb ⟨some "alice", .number 1234567⟩
        = ⟨500, .message false "Something went wrong"⟩ :=
  have h := login_unknown_user_vs_wrong_password sampleBcrypt sampleJwt (some "k") 0
    sampleDb sampleDb "bob" "alice" (.number 1234567) ⟨1, "alice", "a@x.com", "$2a$secret1", 0⟩
    (by decide) (by decide) (by decide) (by decide) (by decide)
  ⟨h.1, (h.2.2 (fun _ hne => JsValue.noConfusion hne)).1⟩

/-! ## Registration -/

theorem truthy_eq_false_iff (field : Option String) :
    truthy field = false ↔ missingOrEmpty field := by
  cases field with
  | none => simp [truthy, missingOrEmpty]
  | some v =>
    have h := truthy_some_iff v
    constructor
    · intro hf
      right
      by_contra hne
      have hv : v ≠ "" := fun e => hne (by rw [e])
      rw [h.2 hv] at hf
      exact Bool.noConfusion hf
    · intro hm
      cases hm with
      | inl h0 => exact Option.noConfusion h0
      | inr h1 =>
        have hv : v = "" := Option.some.inj h1
        rw [hv]
        exact truthy_empty

theorem register_of_missing (bc : Bcrypt) (salt now : Nat) (db : Db) (body : RegisterBody)
    (h : missingOrEmpty body.username ∨ missingOrEmpty body.email ∨ missingOrEmpty body.password) :
    register bc salt now db body = ⟨fillAllFields, db, []⟩ := by
  have h' : truthy body.username = false ∨ truthy body.email = false
      ∨ truthy body.password = false := by
    simpa only [truthy_eq_false_iff] using h
  unfold register
  rcases h' with h1 | h1 | h1 <;> simp [h1]

theorem register_of_present (bc : Bcrypt) (salt now : Nat) (db : Db) (u e p : String)
    (hu : u ≠ "") (he : e ≠ "") (hp : p ≠ "") :
    register bc salt now db ⟨some u, some e, some p⟩ =
      if jsLength p < 6 then ⟨passwordTooShort, db, []⟩
      else
        match User.findByUsername db u with
        | some _ => ⟨usernameTaken, db, []⟩
        | none => ⟨accountCreated, (User.create bc salt now db u e p).1, [p]⟩ := by
  simp [register, truthy_some_of_ne hu, truthy_some_of_ne he, truthy_some_of_ne hp]

theorem not_missingOrEmpty {field : Option String} (h : ¬ missingOrEmpty field) :
    ∃ v, field = some v ∧ v ≠ "" := by
  cases field with
  | none => exact absurd (Or.inl rfl) h
  | some v => exact ⟨v, rfl, fun e => h (Or.inr (by rw [e]))⟩

/-- C10: a registration request is rejected with a validation error (HTTP 400),
with nothing hashed and nothing inserted, if and only if username, email or
password is missing or empty or the password is shorter than 6 characters
(characters counted as JavaScript's `length` counts them); and a password of
exactly 6 characters passes validation. -/
theorem register_validation_error_iff (bc : Bcrypt) (salt now : Nat) (db : Db)
    (body : RegisterBody) :
    ((isValidationError (register bc salt now db body).response
        ∧ (register bc salt now db body).hashed = []
        ∧ (register bc salt now db body).db = db)
      ↔ (missingOrEmpty body.username ∨ missingOrEmpty body.email
          ∨ missingOrEmpty body.password
          ∨ ∃ p, body.password = some p ∧ jsLength p < 6))
    ∧ (∀ p, body.password = some p → jsLength p = 6 →
        ¬ missingOrEmpty body.username → ¬ missingOrEmpty body.email →
        ¬ isValidationError (register bc salt now db body).response) := by
  by_cases hm : missingOrEmpty body.username ∨ missingOrEmpty body.email
      ∨ missingOrEmpty body.password
  · have hr := register_of_missing bc salt now db body hm
    refine ⟨?_, ?_⟩
    · rw [hr]
      constructor
      · intro _
        rcases hm with h | h | h
        · exact Or.inl h
        · exact Or.inr (Or.inl h)
        · exact Or.inr (Or.inr (Or.inl h))
      · intro _
        exact ⟨⟨rfl, Or.inl rfl⟩, rfl, rfl⟩
    · intro p hp h6 hu he
      rcases hm with h | h | h
      · exact absurd h hu
      · exact absurd h he
      · exfalso
        rcases h with h | h
        · rw [hp] at h
          exact Option.noConfusion h
        · rw [hp] at h
          have hpe : p = "" := Option.some.inj h
          rw [hpe, jsLength_empty] at h6
          omega
  · have hu : ¬ missingOrEmpty body.username := fun h => hm (Or.inl h)
    have he : ¬ missingOrEmpty body.email := fun h => hm (Or.inr (Or.inl h))
    have hp : ¬ missingOrEmpty body.password := fun h => hm (Or.inr (Or.inr h))
    obtain ⟨u, hu1, hu2⟩ := not_missingOrEmpty hu
    obtain ⟨e, he1, he2⟩ := not_missingOrEmpty he
    obtain ⟨p, hp1, hp2⟩ := not_missingOrEmpty hp
    have hbody : body = ⟨some u, some e, some p⟩ := by
      cases body
      simp_all
    have hr := register_of_present bc salt now db u e p hu2 he2 hp2
    rw [hbody]
    rw [hbody] at hu he hp
    simp only [hr]
    by_cases hlen : jsLength p < 6
    · refine ⟨?_, ?_⟩
      · simp only [hlen, if_true]
        constructor
        · intro _
          exact Or.inr (Or.inr (Or.inr ⟨p, rfl, hlen⟩))
        · intro _
          exact ⟨⟨rfl, Or.inr rfl⟩, trivial, trivial⟩
      · intro q hq h6 _ _
        have : q = p := (Option.some.inj hq).symm
        rw [this] at h6
        omega
    · simp only [hlen, if_false]
      have hnot : ∀ r : RegisterResult,
          (r.response = usernameTaken ∨ r.response = accountCreated) →
          ¬ isValidationError r.response := by
        intro r hr' hv
        rcases hr' with h | h <;> rw [h] at hv <;> revert hv <;>
          simp [isValidationError, usernameTaken, accountCreated, fillAllFields,
            passwordTooShort]
      have hcase : isValidationError (match User.findByUsername db u with
          | some _ => (⟨usernameTaken, db, []⟩ : RegisterResult)
          | none => ⟨accountCreated, (User.create bc salt now db u e p).1, [p]⟩).response
          → False := by
        cases User.findByUsername db u with
        | none => exact hnot _ (Or.inr rfl)
        | some _ => exact hnot _ (Or.inl rfl)
      refine ⟨?_, ?_⟩
      · constructor
        · intro h
          exact absurd h.1 hcase
        · intro h
          rcases h with h | h | h | ⟨q, hq, hq6⟩
          · exact absurd h hu
          · exact absurd h he
          · exact absurd h hp
          · have : q = p := (Option.some.inj hq).symm
            rw [this] at hq6
            exact absurd hq6 hlen
      · intro q _ _ _ _
        exact hcase

theorem register_validation_error_iff_witness :
    ¬ isValidationError (register sampleBcrypt 7 0 sampleDb
        ⟨some "bob", some "b@x.com", some "abcdef"⟩).response :=
  (register_validation_error_iff sampleBcrypt 7 0 sampleDb
      ⟨some "bob", some "b@x.com", some "abcdef"⟩).2 "abcdef" rfl (by decide)
    (by simp [missingOrEmpty]) (by simp [missingOrEmpty])

/-- C4 as stated fails: `alice` is in the user directory, and a registration
for `alice` without an email is answered with `Please fill all fields`, one
with a 3-character password with `Password must be at least 6 characters`,
neither with `Username already taken`. -/
theorem register_existing_username_not_always_taken :
    User.findByUsername sampleDb "alice" ≠ none
      ∧ (register sampleBcrypt 7 0 sampleDb ⟨some "alice", none, some "secret1"⟩).response
          = fillAllFields
      ∧ (register sampleBcrypt 7 0 sampleDb ⟨some "alice", some "a@x.com", some "abc"⟩).response
          = passwordTooShort
      ∧ fillAllFields ≠ usernameTaken ∧ passwordTooShort ≠ usernameTaken := by
  decide

/-- C4, amended: for a registration request whose non-empty username is
already in the user directory, the user directory is left unchanged and nothing
is hashed; the result is `Username already taken` when email and password are
non-empty and the password has at least 6 characters, `Please fill all fields`
when email or password is missing or empty, and `Password must be at least 6
characters` when both are present and the password is shorter than 6. -/
theorem register_existing_username (bc : Bcrypt) (salt now : Nat) (db : Db) (u : String)
    (email password : Option String) (row : UserRow)
    (hu : u ≠ "") (hexists : User.findByUsername db u = some row) :
    (register bc salt now db ⟨some u, email, password⟩).db = db
      ∧ (register bc salt now db ⟨some u, email, password⟩).hashed = []
      ∧ (∀ e p, email = some e → password = some p → e ≠ "" → 6 ≤ jsLength p →
          (register bc salt now db ⟨some u, email, password⟩).response = usernameTaken)
      ∧ (missingOrEmpty email ∨ missingOrEmpty password →
          (register bc salt now db ⟨some u, email, password⟩).response = fillAllFields)
      ∧ (∀ e p, email = some e → password = some p → e ≠ "" → p ≠ "" → jsLength p < 6 →
          (register bc salt now db ⟨some u, email, password⟩).response = passwordTooShort) := by
  by_cases hm : missingOrEmpty email ∨ missingOrEmpty password
  · have hr := register_of_missing bc salt now db ⟨some u, email, password⟩ (Or.inr hm)
    rw [hr]
    refine ⟨rfl, rfl, ?_, fun _ => rfl, ?_⟩
    · intro e p he hp hne hlen
      exfalso
      rcases hm with h | h
      · rcases h with h | h
        · rw [he] at h
          exact Option.noConfusion h
        · rw [he] at h
          exact hne (Option.some.inj h)
      · rcases h with h | h
        · rw [hp] at h
          exact Option.noConfusion h
        · rw [hp] at h
          exact ne_empty_of_jsLength hlen (Option.some.inj h)
    · intro e p he hp hne hpne _
      exfalso
      rcases hm with h | h
      · rcases h with h | h
        · rw [he] at h
          exact Option.noConfusion h
        · rw [he] at h
          exact hne (Option.some.inj h)
      · rcases h with h | h
        · rw [hp] at h
          exact Option.noConfusion h
        · rw [hp] at h
          exact hpne (Option.some.inj h)
  · obtain ⟨e, he1, he2⟩ := not_missingOrEmpty (fun h => hm (Or.inl h))
    obtain ⟨p, hp1, hp2⟩ := not_missingOrEmpty (fun h => hm (Or.inr h))
    subst he1 hp1
    have hr := register_of_present bc salt now db u e p hu he2 hp2
    rw [hr, hexists]
    by_cases hlen : jsLength p < 6
    · rw [if_pos hlen]
      refine ⟨rfl, rfl, ?_, fun h => absurd h hm, fun _ _ _ _ _ _ _ => rfl⟩
      intro e1 p1 _ hp _ h6
      have : p1 = p := (Option.some.inj hp).symm
      rw [this] at h6
      omega
    · rw [if_neg hlen]
      refine ⟨rfl, rfl, fun _ _ _ _ _ _ => rfl, fun h => absurd h hm, ?_⟩
      intro e1 p1 _ hp _ _ h6
      have : p1 = p := (Option.some.inj hp).symm
      rw [this] at h6
      exact absurd h6 hlen

theorem register_existing_username_witness :
    (register sampleBcrypt 7 0 sampleDb ⟨some "alice", some "z@x.com", some "hunter22"⟩).db
        = sampleDb
      ∧ (register sampleBcrypt 7 0 sampleDb
          ⟨some "alice", some "z@x.com", some "hunter22"⟩).response = usernameTaken :=
  have h := register_existing_username sampleBcrypt 7 0 sampleDb "alice" (some "z@x.com")
    (some "hunter22") ⟨1, "alice", "a@x.com", "$2a$secret1", 0⟩ (by decide) (by decide)
  ⟨h.1, h.2.2.1 "z@x.com" "hunter22" rfl rfl (by decide) (by decide)⟩

/-! ## Register, then log in -/

theorem findByUsername_after_create (bc : Bcrypt) (salt now : Nat) (db : Db) (u e p : String)
    (hfresh : User.findByUsername db u = none) :
    User.findByUsername (User.create bc salt now db u e p).1 u
      = some ⟨db.nextId, u, e, bc.hash 10 salt p, now⟩ := by
  have hnil : db.rows.filter (fun r => decide (r.username = u)) = [] := by
    have h := hfresh
    simp only [User.findByUsername, Db.selectByUsername] at h
    cases hf : db.rows.filter (fun r => decide (r.username = u)) with
    | nil => rfl
    | cons a l =>
      rw [hf] at h
      exact Option.noConfusion h
  simp [User.findByUsername, User.create, Db.insertUser, Db.selectByUsername,
    List.filter_append, hnil]

/-- C5: for a non-empty username and email and a password of at least 6
characters, with the username not yet in the user directory, a configured
(non-empty) signing secret, and a password hash that verifies against the
plaintext it was made from: register answers 201 success, and a following login
with the same username and password answers 200 with the token that `jwt.sign`
makes for the new user, whose payload carries the registered username, and
with the user projection made of the new id, the username and the email only
(the projection has no field for the password hash). -/
theorem register_then_login (bc : Bcrypt) (lib : JwtLib) (secret : String)
    (salt now nowMs : Nat) (db : Db) (u e p : String)
    (hu : u ≠ "") (he : e ≠ "") (hp : 6 ≤ jsLength p)
    (hfresh : User.findByUsername db u = none)
    (hsecret : secret ≠ "")
    (hverifies : bc.compare p (bc.hash 10 salt p) = true) :
    (register bc salt now db ⟨some u, some e, some p⟩).response
        = ⟨201, .message true "Account created successfully!"⟩
      ∧ login bc lib (some secret) nowMs
            (register bc salt now db ⟨some u, some e, some p⟩).db ⟨some u, .string p⟩
          = ⟨200, .login true "Login successful!"
              (lib.encode (signClaims lib secret (issueClaims nowMs db.nextId u)))
              ⟨db.nextId, u, e⟩⟩
      ∧ (signClaims lib secret (issueClaims nowMs db.nextId u)).claims.username = u
      ∧ jwtSign lib nowMs db.nextId u (some secret)
          = .ok (lib.encode (signClaims lib secret (issueClaims nowMs db.nextId u))) := by
  have hpne : p ≠ "" := ne_empty_of_jsLength hp
  have hlen : ¬ jsLength p < 6 := by omega
  have hr := register_of_present bc salt now db u e p hu he hpne
  rw [hr, hfresh, if_neg hlen]
  refine ⟨rfl, ?_, rfl, ?_⟩
  · have hfind := findByUsername_after_create bc salt now db u e p hfresh
    simp [login, truthy_some_of_ne hu, truthy_string, truthy_some_of_ne hpne, hfind,
      User.validatePassword, bcryptCompare, hverifies, jwtSign, truthy_some_of_ne hsecret]
  · simp [jwtSign, truthy_some_of_ne hsecret]

theorem register_then_login_witness :
    (register sampleBcrypt 7 0 ⟨[], 1⟩ ⟨some "alice", some "a@x.com", some "secret1"⟩).response
        = ⟨201, .message true "Account created successfully!"⟩
      ∧ login sampleBcrypt sampleJwt (some "k") 1700000000000
            (register sampleBcrypt 7 0 ⟨[], 1⟩
              ⟨some "alice", some "a@x.com", some "secret1"⟩).db
            ⟨some "alice", .string "secret1"⟩
          = ⟨200, .login true "Login successful!"
              (sampleJwt.encode (signClaims sampleJwt "k" (issueClaims 1700000000000 1 "alice")))
              ⟨1, "alice", "a@x.com"⟩⟩
      ∧ (signClaims sampleJwt "k" (issueClaims 1700000000000 1 "alice")).claims.username
          = "alice"
      ∧ jwtSign sampleJwt 1700000000000 1 "alice" (some "k")
          = .ok (sampleJwt.encode
              (signClaims sampleJwt "k" (issueClaims 1700000000000 1 "alice"))) :=
  register_then_login sampleBcrypt sampleJwt "k" 7 0 1700000000000 ⟨[], 1⟩
    "alice" "a@x.com" "secret1" (by decide) (by decide) (by decide) (by decide) (by decide)
    (by decide)

/-! ## Tokens -/

theorem jwtVerify_of_decode (lib : JwtLib) (nowMs : Nat) (token secret : String)
    (t : SignedToken) (hpresent : token ≠ "") (hdecode : lib.decode token = some t)
    (hsecret : secret ≠ "") (hsig : t.signature = lib.hmac secret t.claims) :
    jwtVerify lib nowMs token (some secret)
      = if clockTimestamp nowMs ≥ t.claims.exp then .error .tokenExpiredError
        else .ok t.claims := by
  simp [jwtVerify, hpresent, hdecode, truthy_some_of_ne hsecret, hsig]

/-- C6: a token issued at login for a user id and username, signed with the
(non-empty) process secret with `expiresIn` 24h and parsed back by the library
as it was serialised, carries as issue time `t` the clock second of the issue
instant; it verifies at every instant strictly before `t + 24h` and yields
exactly that user id and username, and at every instant at or after `t + 24h`
verification fails with the token-expired error.  Instants are in
milliseconds, `t` in seconds. -/
theorem issued_token_verifies_until_expiry (lib : JwtLib) (secret : String) (userId : Nat)
    (username : String) (issuedMs nowMs : Nat)
    (hsecret : secret ≠ "")
    (hparse : lib.decode (lib.encode (signClaims lib secret (issueClaims issuedMs userId username)))
      = some (signClaims lib secret (issueClaims issuedMs userId username)))
    (hpresent : lib.encode (signClaims lib secret (issueClaims issuedMs userId username)) ≠ "") :
    ∃ token claims,
      jwtSign lib issuedMs userId username (some secret) = .ok token
        ∧ claims.userId = userId ∧ claims.username = username
        ∧ claims.iat = issuedMs / 1000
        ∧ (nowMs < (claims.iat + 24 * 60 * 60) * 1000 →
            jwtVerify lib nowMs token (some secret) = .ok claims)
        ∧ ((claims.iat + 24 * 60 * 60) * 1000 ≤ nowMs →
            jwtVerify lib nowMs token (some secret) = .error .tokenExpiredError) := by
  have hv := jwtVerify_of_decode lib nowMs _ secret _ hpresent hparse hsecret rfl
  refine ⟨lib.encode (signClaims lib secret (issueClaims issuedMs userId username)),
    issueClaims issuedMs userId username, ?_, rfl, rfl, rfl, ?_, ?_⟩
  · simp [jwtSign, truthy_some_of_ne hsecret]
  · intro hlt
    have hclock : ¬ (clockTimestamp nowMs ≥ (issueClaims issuedMs userId username).exp) := by
      simp only [issueClaims, clockTimestamp, expiresIn24h] at hlt ⊢
      omega
    rw [hv]
    exact if_neg hclock
  · intro hge
    have hclock : clockTimestamp nowMs ≥ (issueClaims issuedMs userId username).exp := by
      simp only [issueClaims, clockTimestamp, expiresIn24h] at hge ⊢
      omega
    rw [hv]
    exact if_pos hclock

theorem issued_token_verifies_until_expiry_witness :
    ∃ token claims,
      jwtSign sampleJwt 1700000000500 1 "alice" (some "k") = .ok token
        ∧ claims.userId = 1 ∧ claims.username = "alice"
        ∧ claims.iat = 1700000000500 / 1000
        ∧ (1700086399999 < (claims.iat + 24 * 60 * 60) * 1000 →
            jwtVerify sampleJwt 1700086399999 token (some "k") = .ok claims)
        ∧ ((claims.iat + 24 * 60 * 60) * 1000 ≤ 1700086399999 →
            jwtVerify sampleJwt 1700086399999 token (some "k") = .error .tokenExpiredError) :=
  issued_token_verifies_until_expiry sampleJwt "k" 1 "alice" 1700000000500 1700086399999
    (by decide) (by decide) (by decide)

/-! ## Splitting at a character -/

theorem splitChars_ne_nil (sep : Char) (cs : List Char) : splitChars sep cs ≠ [] := by
  cases cs with
  | nil => simp [splitChars]
  | cons c cs =>
    unfold splitChars
    split
    · simp
    · split <;> simp

theorem splitChars_of_not_mem (sep : Char) (cs : List Char) (h : sep ∉ cs) :
    splitChars sep cs = [cs] := by
  induction cs with
  | nil => rfl
  | cons c cs ih =>
    have hc : c ≠ sep := fun e => h (by simp [e])
    have hcs : sep ∉ cs := fun m => h (List.mem_cons_of_mem _ m)
    simp [splitChars, hc, ih hcs]

theorem splitChars_append_sep (sep : Char) (a b : List Char) (h : sep ∉ a) :
    splitChars sep (a ++ sep :: b) = a :: splitChars sep b := by
  induction a with
  | nil => simp [splitChars]
  | cons c a ih =>
    have hc : c ≠ sep := fun e => h (by simp [e])
    have ha : sep ∉ a := fun m => h (List.mem_cons_of_mem _ m)
    simp [splitChars, hc, ih ha]

theorem splitChars_append (sep : Char) (a b : List Char) :
    splitChars sep (a ++ sep :: b) = splitChars sep a ++ splitChars sep b := by
  induction a with
  | nil => simp [splitChars]
  | cons c a ih =>
    by_cases hc : c = sep
    · simp [splitChars, hc, ← ih]
    · have hstep : ∀ l : List Char, splitChars sep (c :: l)
          = match splitChars sep l with
            | [] => [[c]]
            | q :: qs => (c :: q) :: qs := by
        intro l
        simp [splitChars, hc]
      rw [List.cons_append, hstep, hstep, ih]
      cases hs : splitChars sep a with
      | nil => exact absurd hs (splitChars_ne_nil sep a)
      | cons q qs => simp

theorem exists_first_sep (sep : Char) (cs : List Char) :
    sep ∉ cs ∨ ∃ a b, sep ∉ a ∧ cs = a ++ sep :: b := by
  induction cs with
  | nil => exact Or.inl (by simp)
  | cons c cs ih =>
    by_cases hc : c = sep
    · exact Or.inr ⟨[], cs, by simp, by simp [hc]⟩
    · rcases ih with h | ⟨a, b, ha, hab⟩
      · left
        intro hm
        rcases List.mem_cons.1 hm with h1 | h1
        · exact hc h1.symm
        · exact h h1
      · right
        refine ⟨c :: a, b, ?_, by simp [hab]⟩
        intro hm
        rcases List.mem_cons.1 hm with h1 | h1
        · exact hc h1.symm
        · exact ha h1

theorem splitChars_head_iff (sep : Char) (cs tok : List Char) :
    (splitChars sep cs)[0]? = some tok ↔
      sep ∉ tok ∧ (cs = tok ∨ ∃ r, cs = tok ++ sep :: r) := by
  constructor
  · intro h
    rcases exists_first_sep sep cs with hn | ⟨a, b, ha, hab⟩
    · rw [splitChars_of_not_mem sep cs hn] at h
      have : cs = tok := by simpa using h
      subst this
      exact ⟨hn, Or.inl rfl⟩
    · rw [hab, splitChars_append_sep sep a b ha] at h
      have : a = tok := by simpa using h
      subst this
      exact ⟨ha, Or.inr ⟨b, hab⟩⟩
  · rintro ⟨hn, h | ⟨r, h⟩⟩
    · rw [h, splitChars_of_not_mem sep tok hn]
      rfl
    · rw [h, splitChars_append_sep sep tok r hn]
      simp

theorem splitChars_second_iff (sep : Char) (cs tok : List Char) :
    (splitChars sep cs)[1]? = some tok ↔
      ∃ a, sep ∉ a ∧ sep ∉ tok
        ∧ (cs = a ++ sep :: tok ∨ ∃ r, cs = a ++ sep :: (tok ++ sep :: r)) := by
  constructor
  · intro h
    rcases exists_first_sep sep cs with hn | ⟨a, b, ha, hab⟩
    · rw [splitChars_of_not_mem sep cs hn] at h
      simp at h
    · rw [hab, splitChars_append_sep sep a b ha] at h
      have h0 : (splitChars sep b)[0]? = some tok := by simpa using h
      obtain ⟨hn, hb⟩ := (splitChars_head_iff sep b tok).1 h0
      refine ⟨a, ha, hn, ?_⟩
      rcases hb with hb | ⟨r, hb⟩
      · left
        rw [hab, hb]
      · right
        exact ⟨r, by rw [hab, hb]⟩
  · rintro ⟨a, ha, hn, h | ⟨r, h⟩⟩
    · rw [h, splitChars_append_sep sep a tok ha, splitChars_of_not_mem sep tok hn]
      rfl
    · rw [h, splitChars_append_sep sep a _ ha, splitChars_append_sep sep tok r hn]
      simp

/-! ## The authentication gate -/

theorem requireAuth_cases (lib : JwtLib) (secret : Option String) (nowMs : Nat)
    (authorization : Option String) :
    (∃ user, requireAuth lib secret nowMs authorization = .next user)
      ∨ requireAuth lib secret nowMs authorization = .respond mustBeLoggedIn
      ∨ requireAuth lib secret nowMs authorization = .respond invalidToken := by
  unfold requireAuth
  by_cases h : truthy (headerToken authorization) = true
  · cases hv : jwtVerify lib nowMs ((headerToken authorization).getD "") secret with
    | ok c => exact Or.inl ⟨c, by simp [h, hv]⟩
    | error e => exact Or.inr (Or.inr (by simp [h, hv]))
  · exact Or.inr (Or.inl (by simp [h]))

theorem headerToken_some (header : String) :
    headerToken (some header) = ((splitChars ' ' header.data)[1]?).map String.mk := by
  simp [headerToken, jsSplit]

theorem headerToken_eq_some_iff (header token : String) :
    headerToken (some header) = some token ↔ secondSpacePiece header token := by
  rw [headerToken_some]
  have hmk : ((splitChars ' ' header.data)[1]?).map String.mk = some token
      ↔ (splitChars ' ' header.data)[1]? = some token.data := by
    cases (splitChars ' ' header.data)[1]? with
    | none => simp
    | some l =>
      simp only [Option.map_some', Option.some.injEq]
      constructor
      · intro h
        rw [← h]
      · intro h
        rw [h]
  rw [hmk, splitChars_second_iff]
  constructor
  · rintro ⟨a, ha, hn, h | ⟨r, h⟩⟩
    · refine ⟨⟨a⟩, ha, hn, Or.inl ?_⟩
      apply String.ext
      simp [h]
    · refine ⟨⟨a⟩, ha, hn, Or.inr ⟨⟨r⟩, ?_⟩⟩
      apply String.ext
      simp [h]
  · rintro ⟨scheme, ha, hn, h | ⟨r, h⟩⟩
    · refine ⟨scheme.data, ha, hn, Or.inl ?_⟩
      rw [h]
      simp
    · refine ⟨scheme.data, ha, hn, Or.inr ⟨r.data, ?_⟩⟩
      rw [h]
      simp

/-- C9 as stated fails: in the header `Bearer<TAB>T` the second
whitespace-separated token is `T`, and `T` verifies, yet `requireAuth` answers
401 `You must be logged in`, because the header has no space to split at. -/
theorem requireAuth_rejects_tab_separated_token :
    secondWhitespaceToken (some tabSeparatedHeader) = some "T"
      ∧ jwtVerify sampleJwt 1700000000000 "T" (some "k") = .ok sampleClaims
      ∧ requireAuth sampleJwt (some "k") 1700000000000 (some tabSeparatedHeader)
          = .respond ⟨401, .message false "You must be logged in"⟩ :=
  ⟨by decide, rfl, by decide⟩

/-- C9, amended: `requireAuth` admits the request, setting the request identity
to the decoded payload and running the downstream handler, exactly when the
Authorization header is present, its second piece when split at each single
space character exists, and that piece verifies; in every other case (no
header, no second piece, an empty second piece, an invalid or expired token) it
responds 401 and the downstream handler does not run. -/
theorem requireAuth_next_iff (lib : JwtLib) (secret : Option String) (nowMs : Nat)
    (authorization : Option String) :
    (∀ user, requireAuth lib secret nowMs authorization = .next user ↔
        ∃ header token, authorization = some header ∧ secondSpacePiece header token
          ∧ jwtVerify lib nowMs token secret = .ok user)
      ∧ ((¬ ∃ header token user, authorization = some header ∧ secondSpacePiece header token
            ∧ jwtVerify lib nowMs token secret = .ok user) →
          ∃ response, requireAuth lib secret nowMs authorization = .respond response
            ∧ response.status = 401) := by
  have hempty : ∀ user, jwtVerify lib nowMs "" secret ≠ .ok user := by
    intro user
    simp [jwtVerify]
  have key : ∀ user, requireAuth lib secret nowMs authorization = .next user ↔
      ∃ token, headerToken authorization = some token
        ∧ jwtVerify lib nowMs token secret = .ok user := by
    intro user
    unfold requireAuth
    cases htok : headerToken authorization with
    | none => simp [truthy]
    | some t =>
      by_cases ht : t = ""
      · subst ht
        simp [truthy_empty, hempty]
      · simp only [truthy_some_of_ne ht, Bool.not_true, Bool.false_eq_true, if_false,
          Option.getD_some, Option.some.injEq, exists_eq_left']
        cases jwtVerify lib nowMs t secret with
        | ok c => simp
        | error e => simp
  have bridge : ∀ token, headerToken authorization = some token ↔
      ∃ header, authorization = some header ∧ secondSpacePiece header token := by
    intro token
    cases authorization with
    | none => simp [headerToken]
    | some header => simp [headerToken_eq_some_iff]
  refine ⟨?_, ?_⟩
  · intro user
    rw [key]
    constructor
    · rintro ⟨token, h1, h2⟩
      obtain ⟨header, h3, h4⟩ := (bridge token).1 h1
      exact ⟨header, token, h3, h4, h2⟩
    · rintro ⟨header, token, h3, h4, h2⟩
      exact ⟨token, (bridge token).2 ⟨header, h3, h4⟩, h2⟩
  · intro hno
    have hnext : ∀ user, requireAuth lib secret nowMs authorization ≠ .next user := by
      intro user h
      obtain ⟨token, h1, h2⟩ := (key user).1 h
      obtain ⟨header, h3, h4⟩ := (bridge token).1 h1
      exact hno ⟨header, token, user, h3, h4, h2⟩
    rcases requireAuth_cases lib secret nowMs authorization with ⟨user, h⟩ | h | h
    · exact absurd h (hnext user)
    · exact ⟨mustBeLoggedIn, h, rfl⟩
    · exact ⟨invalidToken, h, rfl⟩

theorem requireAuth_next_iff_witness :
    ∃ response, requireAuth sampleJwt (some "k") 1700000000000 (some "Bearer") = .respond response
      ∧ response.status = 401 :=
  (requireAuth_next_iff sampleJwt (some "k") 1700000000000 (some "Bearer")).2 (by
    rintro ⟨header, token, user, h1, h2, h3⟩
    have h4 : headerToken (some "Bearer") = some token := by
      rw [h1, headerToken_eq_some_iff]
      exact h2
    have h5 : headerToken (some "Bearer") = none := by decide
    rw [h5] at h4
    exact Option.noConfusion h4)

/-! ## Path normalisation -/

theorem not_mem_of_mem_splitChars (sep : Char) (cs seg : List Char)
    (h : seg ∈ splitChars sep cs) : sep ∉ seg := by
  induction cs generalizing seg with
  | nil =>
    simp [splitChars] at h
    simp [h]
  | cons c cs ih =>
    by_cases hc : c = sep
    · simp only [splitChars, hc, if_true, List.mem_cons] at h
      rcases h with h | h
      · simp [h]
      · exact ih seg h
    · simp only [splitChars, hc, if_false] at h
      cases hs : splitChars sep cs with
      | nil => exact absurd hs (splitChars_ne_nil sep cs)
      | cons q qs =>
        rw [hs] at h ih
        simp only [List.mem_cons] at h
        rcases h with h | h
        · rw [h]
          intro hm
          rcases List.mem_cons.1 hm with h1 | h1
          · exact hc h1.symm
          · exact ih q (by simp) h1
        · exact ih seg (by simp [h])

theorem joinSlash_cons_cons (s t : List Char) (rest : List (List Char)) :
    joinSlash (s :: t :: rest) = s ++ '/' :: joinSlash (t :: rest) := rfl

theorem splitChars_joinSlash (segs : List (List Char)) (hne : segs ≠ [])
    (hslash : ∀ seg ∈ segs, '/' ∉ seg) : splitChars '/' (joinSlash segs) = segs := by
  induction segs with
  | nil => exact absurd rfl hne
  | cons s rest ih =>
    cases rest with
    | nil =>
      simp only [joinSlash]
      exact splitChars_of_not_mem _ _ (hslash s (by simp))
    | cons t rest =>
      rw [joinSlash_cons_cons, splitChars_append_sep _ _ _ (hslash s (by simp)),
        ih (by simp) (fun seg h => hslash seg (List.mem_cons_of_mem _ h))]

theorem joinSlash_append_singleton (segs : List (List Char)) (x : List Char) (hne : segs ≠ []) :
    joinSlash (segs ++ [x]) = joinSlash segs ++ '/' :: x := by
  induction segs with
  | nil => exact absurd rfl hne
  | cons s rest ih =>
    cases rest with
    | nil => simp [joinSlash]
    | cons t rest =>
      have h := ih (by simp)
      simp only [List.cons_append] at h ⊢
      rw [joinSlash_cons_cons, h, joinSlash_cons_cons]
      simp

theorem normStep_ordinary (above : Bool) (stack : List (List Char)) (x : List Char)
    (hx : OrdinarySegment x) : normStep above stack x = x :: stack := by
  obtain ⟨h1, h2, h3, _⟩ := hx
  simp [normStep, h1, h2, h3]

theorem normStep_empty (above : Bool) (stack : List (List Char)) :
    normStep above stack [] = stack := by
  simp [normStep]

theorem mem_normStep (above : Bool) (stack : List (List Char)) (x y : List Char)
    (h : y ∈ normStep above stack x) : y ∈ stack ∨ y = x := by
  unfold normStep at h
  split at h
  · exact Or.inl h
  · split at h
    · cases stack with
      | nil =>
        simp only at h
        split at h
        · exact Or.inr (by simpa using h)
        · simp at h
      | cons top rest =>
        simp only at h
        split at h
        · split at h
          · rcases List.mem_cons.1 h with h1 | h1
            · exact Or.inr h1
            · exact Or.inl h1
          · exact Or.inl h
        · exact Or.inl (List.mem_cons_of_mem _ h)
    · rcases List.mem_cons.1 h with h1 | h1
      · exact Or.inr h1
      · exact Or.inl h1

theorem mem_foldl_normStep (above : Bool) (xs : List (List Char)) (stack : List (List Char))
    (y : List Char) (h : y ∈ xs.foldl (normStep above) stack) : y ∈ stack ∨ y ∈ xs := by
  induction xs generalizing stack with
  | nil => exact Or.inl h
  | cons x xs ih =>
    rcases ih _ h with h1 | h1
    · rcases mem_normStep above stack x y h1 with h2 | h2
      · exact Or.inl h2
      · exact Or.inr (by simp [h2])
    · exact Or.inr (List.mem_cons_of_mem _ h1)

theorem normalStack_normStep (above : Bool) (stack : List (List Char)) (x : List Char)
    (h : NormalStack above stack) : NormalStack above (normStep above stack x) := by
  unfold normStep
  split
  · exact h
  · rename_i hskip
    split
    · rename_i hdd
      cases stack with
      | nil =>
        simp only
        split
        · rename_i ha
          exact ⟨trivial, Or.inr ⟨hdd, ha, Or.inl rfl⟩⟩
        · trivial
      | cons top rest =>
        simp only
        split
        · rename_i htop
          split
          · rename_i ha
            exact ⟨h, Or.inr ⟨hdd, ha, Or.inr (by simp [htop])⟩⟩
          · exact h
        · exact h.1
    · rename_i hdd
      refine ⟨h, Or.inl ⟨fun e => hskip (Or.inl e), fun e => hskip (Or.inr e), hdd⟩⟩

theorem normalStack_foldl (above : Bool) (xs : List (List Char)) (stack : List (List Char))
    (h : NormalStack above stack) : NormalStack above (xs.foldl (normStep above) stack) := by
  induction xs generalizing stack with
  | nil => exact h
  | cons x xs ih => exact ih _ (normalStack_normStep above stack x h)

theorem ne_nil_of_mem_normalStack (above : Bool) (stack : List (List Char))
    (h : NormalStack above stack) : ∀ seg ∈ stack, seg ≠ [] := by
  induction stack with
  | nil => simp
  | cons s rest ih =>
    intro seg hm
    rcases List.mem_cons.1 hm with h1 | h1
    · rcases h.2 with h2 | h2
      · rw [h1]
        exact h2.1
      · rw [h1, h2.1]
        simp
    · exact ih h.1 seg h1

theorem foldl_normStep_reverse (above : Bool) (stack : List (List Char))
    (h : NormalStack above stack) : stack.reverse.foldl (normStep above) [] = stack := by
  induction stack with
  | nil => rfl
  | cons s rest ih =>
    rw [List.reverse_cons, List.foldl_append, ih h.1]
    simp only [List.foldl_cons, List.foldl_nil]
    rcases h.2 with ⟨h1, h2, h3⟩ | ⟨h1, h2, h3⟩
    · simp [normStep, h1, h2, h3]
    · subst h1
      rcases h3 with h3 | h3
      · subst h3
        simp [normStep, h2]
      · cases rest with
        | nil => simp at h3
        | cons top rest' =>
          have htop : top = ['.', '.'] := by simpa using h3
          simp [normStep, htop, h2]

theorem joinSlash_append_singleton_ne_nil (segs : List (List Char)) (x : List Char)
    (hx : x ≠ []) : joinSlash (segs ++ [x]) ≠ [] := by
  cases segs with
  | nil => simpa [joinSlash] using hx
  | cons s rest =>
    rw [joinSlash_append_singleton _ _ (by simp)]
    simp

theorem normSegments_append_ordinary (above : Bool) (segs : List (List Char)) (x : List Char)
    (hx : OrdinarySegment x) :
    normSegments above (segs ++ [x]) = normSegments above segs ++ [x] := by
  simp [normSegments, List.foldl_append, normStep_ordinary above _ x hx]

theorem getLast?_append_cons_ne (p x : List Char) (c : Char) (hx : x ≠ []) (hc : c ∉ x) :
    (p ++ '/' :: x).getLast? ≠ some c := by
  intro h
  have h1 : (p ++ '/' :: x).getLast? = x.getLast? := by
    rw [show p ++ '/' :: x = (p ++ ['/']) ++ x by simp]
    exact List.getLast?_append_of_ne_nil _ hx
  rw [h1] at h
  exact hc (List.mem_of_getLast?_eq_some h)

theorem normalizeChars_append_ordinary (p x : List Char) (hp : p ≠ [])
    (hx : OrdinarySegment x) :
    normalizeChars (p ++ '/' :: x)
      = renderPath (decide (p.head? = some '/'))
          (normSegments (!decide (p.head? = some '/')) (splitChars '/' p) ++ [x]) := by
  have hne : p ++ '/' :: x ≠ [] := by simp
  have hhead : (p ++ '/' :: x).head? = p.head? := by
    cases p with
    | nil => exact absurd rfl hp
    | cons c cs => rfl
  have hlast : ¬ ((p ++ '/' :: x).getLast? = some '/') :=
    getLast?_append_cons_ne p x '/' hx.1 hx.2.2.2
  have hsplit : splitChars '/' (p ++ '/' :: x) = splitChars '/' p ++ [x] := by
    rw [splitChars_append, splitChars_of_not_mem _ _ hx.2.2.2]
  have hbody : joinSlash (normSegments (!decide (p.head? = some '/')) (splitChars '/' p) ++ [x])
      ≠ [] := joinSlash_append_singleton_ne_nil _ _ hx.1
  unfold normalizeChars
  simp only [hne, if_false, hhead, hsplit, normSegments_append_ordinary _ _ _ hx, hbody, hlast,
    renderPath]
  by_cases ha : p.head? = some '/' <;> simp [ha]

theorem head?_joinSlash_ne_slash (segs : List (List Char)) (hne : segs ≠ [])
    (hnil : ∀ seg ∈ segs, seg ≠ []) (hslash : ∀ seg ∈ segs, '/' ∉ seg) :
    (joinSlash segs).head? ≠ some '/' := by
  cases segs with
  | nil => exact absurd rfl hne
  | cons s rest =>
    have hs : s ≠ [] := hnil s (by simp)
    have hs2 : '/' ∉ s := hslash s (by simp)
    cases s with
    | nil => exact absurd rfl hs
    | cons c cs =>
      have hc : c ≠ '/' := fun e => hs2 (by simp [e])
      cases rest with
      | nil =>
        simp only [joinSlash, List.head?_cons, ne_eq, Option.some.injEq]
        exact hc
      | cons t rest =>
        simp only [joinSlash_cons_cons, List.cons_append, List.head?_cons, ne_eq,
          Option.some.injEq]
        exact hc

theorem normalizeChars_child (p c name : List Char) (hp : p ≠ [])
    (hc : OrdinarySegment c) (hn : OrdinarySegment name) :
    normalizeChars (normalizeChars (p ++ '/' :: c) ++ '/' :: name)
      = normalizeChars (p ++ '/' :: c) ++ '/' :: name := by
  have hD := normalizeChars_append_ordinary p c hp hc
  generalize hdir : normalizeChars (p ++ '/' :: c) = dir at hD ⊢
  generalize ha : decide (p.head? = some '/') = a at hD
  have hK : NormalStack (!a) ((splitChars '/' p).foldl (normStep (!a)) []) :=
    normalStack_foldl (!a) _ [] trivial
  generalize hKdef : (splitChars '/' p).foldl (normStep (!a)) [] = K at hK
  have hsegs : normSegments (!a) (splitChars '/' p) = K.reverse := by
    simp [normSegments, hKdef]
  rw [hsegs] at hD
  have hKslash : ∀ seg ∈ K, '/' ∉ seg := by
    intro seg hm
    rw [← hKdef] at hm
    rcases mem_foldl_normStep (!a) _ [] seg hm with h | h
    · simp at h
    · exact not_mem_of_mem_splitChars '/' p seg h
  have hKnil : ∀ seg ∈ K, seg ≠ [] := ne_nil_of_mem_normalStack (!a) K hK
  have hLslash : ∀ seg ∈ K.reverse ++ [c], '/' ∉ seg := by
    intro seg hm
    rcases List.mem_append.1 hm with h | h
    · exact hKslash seg (List.mem_reverse.1 h)
    · rw [List.mem_singleton.1 h]
      exact hc.2.2.2
  have hLnil : ∀ seg ∈ K.reverse ++ [c], seg ≠ [] := by
    intro seg hm
    rcases List.mem_append.1 hm with h | h
    · exact hKnil seg (List.mem_reverse.1 h)
    · rw [List.mem_singleton.1 h]
      exact hc.1
  have hLne : K.reverse ++ [c] ≠ [] := by simp
  have hdirne : dir ≠ [] := by
    rw [hD]
    unfold renderPath
    split
    · simp
    · exact joinSlash_append_singleton_ne_nil _ _ hc.1
  have hdirhead : decide (dir.head? = some '/') = a := by
    rw [hD]
    unfold renderPath
    cases a with
    | true => simp
    | false =>
      simp only [Bool.false_eq_true, if_false, decide_eq_false_iff_not]
      exact head?_joinSlash_ne_slash _ hLne hLnil hLslash
  have hdirsegs : normSegments (!a) (splitChars '/' dir) = K.reverse ++ [c] := by
    have hfold : (K.reverse ++ [c]).foldl (normStep (!a)) [] = c :: K := by
      rw [List.foldl_append, foldl_normStep_reverse (!a) K hK]
      simp [normStep_ordinary (!a) K c hc]
    rw [hD]
    unfold renderPath
    cases a with
    | true =>
      simp only [if_true]
      have hsp : splitChars '/' ('/' :: joinSlash (K.reverse ++ [c]))
          = [] :: (K.reverse ++ [c]) := by
        have h := splitChars_append_sep '/' [] (joinSlash (K.reverse ++ [c])) (by simp)
        simp only [List.nil_append] at h
        rw [h, splitChars_joinSlash _ hLne hLslash]
      rw [hsp]
      simp only [normSegments, List.foldl_cons, normStep_empty]
      rw [hfold]
      simp
    | false =>
      simp only [Bool.false_eq_true, if_false]
      rw [splitChars_joinSlash _ hLne hLslash]
      simp only [normSegments]
      rw [hfold]
      simp
  rw [normalizeChars_append_ordinary dir name hdirne hn, hdirhead, hdirsegs]
  rw [hD]
  unfold renderPath
  rw [joinSlash_append_singleton _ _ hLne]
  cases a <;> simp

theorem joinChars_pair (dir name : List Char) (hd : dir ≠ []) (hn : name ≠ []) :
    joinChars [dir, name] = normalizeChars (dir ++ '/' :: name) := by
  cases dir with
  | nil => exact absurd rfl hd
  | cons d ds =>
    cases name with
    | nil => exact absurd rfl hn
    | cons n ns => simp [joinChars, joinSlash]

theorem joinChars_triple (d mid c : List Char) (hm : mid ≠ []) (hc : c ≠ []) :
    ∃ p, p ≠ [] ∧ joinChars [d, mid, c] = normalizeChars (p ++ '/' :: c) := by
  cases mid with
  | nil => exact absurd rfl hm
  | cons m ms =>
    cases c with
    | nil => exact absurd rfl hc
    | cons c0 cs =>
      cases d with
      | nil => exact ⟨m :: ms, by simp, by simp [joinChars, joinSlash]⟩
      | cons d0 ds =>
        exact ⟨(d0 :: ds) ++ '/' :: (m :: ms), by simp, by simp [joinChars, joinSlash]⟩

theorem normalizeChars_ne_nil (p : List Char) : normalizeChars p ≠ [] := by
  unfold normalizeChars
  split
  · simp
  · simp only
    split
    · split
      · simp
      · split <;> simp
    · rename_i hbody
      split
      · simp
      · split
        · simp
        · exact hbody

theorem joinChars_child (d mid c name : List Char) (hm : mid ≠ [])
    (hc : OrdinarySegment c) (hn : OrdinarySegment name) :
    joinChars [joinChars [d, mid, c], name] = joinChars [d, mid, c] ++ '/' :: name := by
  obtain ⟨p, hp, hj⟩ := joinChars_triple d mid c hm hc.1
  rw [joinChars_pair _ _ (by rw [hj]; exact normalizeChars_ne_nil _) hn.1, hj]
  exact normalizeChars_child p c name hp hc hn

/-! ## The assigned file name -/

theorem digitChar_ne_slash (k : Nat) (hk : k < 10) : Nat.digitChar k ≠ '/' := by
  revert k
  decide

theorem toDigitsCore_no_slash (fuel n : Nat) (acc : List Char) (hacc : '/' ∉ acc) :
    '/' ∉ Nat.toDigitsCore 10 fuel n acc := by
  induction fuel generalizing n acc with
  | zero => simpa [Nat.toDigitsCore] using hacc
  | succ fuel ih =>
    have hd : '/' ∉ Nat.digitChar (n % 10) :: acc := by
      intro hm
      rcases List.mem_cons.1 hm with h | h
      · exact digitChar_ne_slash (n % 10) (Nat.mod_lt _ (by omega)) h.symm
      · exact hacc h
    unfold Nat.toDigitsCore
    simp only
    split
    · exact hd
    · exact ih _ _ hd

theorem toString_no_slash (n : Nat) : '/' ∉ (toString n).data := by
  show '/' ∉ (Nat.repr n).data
  unfold Nat.repr Nat.toDigits
  exact toDigitsCore_no_slash _ _ _ (by simp)

theorem lastPortionRev_no_slash (p : List Char) : '/' ∉ lastPortionRev p := by
  intro h
  have := List.mem_takeWhile_imp h
  simp at this

theorem lastPortion_no_slash (p : List Char) : '/' ∉ lastPortion p := by
  intro h
  exact lastPortionRev_no_slash p (List.mem_reverse.1 h)

theorem extnameChars_cases (p : List Char) :
    extnameChars p = []
      ∨ (extnameChars p
            = '.' :: ((lastPortionRev p).takeWhile (fun c => c != '.')).reverse
          ∧ (extnameChars p).length < (lastPortion p).length) := by
  unfold extnameChars
  simp only
  split
  · exact Or.inl rfl
  · exact Or.inl rfl
  · rename_i x y rest hdrop
    split
    · exact Or.inl rfl
    · right
      refine ⟨rfl, ?_⟩
      have hlen := congrArg List.length
        (List.takeWhile_append_dropWhile (fun c => c != '.') (lastPortionRev p))
      rw [List.length_append, hdrop] at hlen
      simp only [List.length_cons, List.length_reverse, lastPortion] at hlen ⊢
      omega

theorem extnameChars_no_slash (p : List Char) : '/' ∉ extnameChars p := by
  rcases extnameChars_cases p with h | ⟨h, _⟩
  · rw [h]
    simp
  · rw [h]
    intro hm
    rcases List.mem_cons.1 hm with h1 | h1
    · exact absurd h1 (by decide)
    · exact lastPortionRev_no_slash p
        ((List.takeWhile_sublist _).subset (List.mem_reverse.1 h1))

theorem basenameChars_extname_no_slash (p : List Char) :
    '/' ∉ basenameChars p (extnameChars p) := by
  have hcomp := lastPortion_no_slash p
  have hlen : (extnameChars p).length ≤ (lastPortion p).length := by
    rcases extnameChars_cases p with h | ⟨_, h⟩
    · rw [h]
      simp
    · omega
  unfold basenameChars
  simp only
  split
  · split
    · simp
    · split
      · intro hm
        exact hcomp (List.mem_of_mem_take hm)
      · exact hcomp
  · exact hcomp

theorem storageFilename_data (now : Nat) (originalname : String) :
    (storageFilename now originalname).data
      = basenameChars originalname.data (extnameChars originalname.data)
          ++ '_' :: ((toString now).data ++ extnameChars originalname.data) := by
  simp [storageFilename, basename, extname]

theorem storageFilename_ordinary (now : Nat) (originalname : String) :
    OrdinarySegment (storageFilename now originalname).data := by
  have hmem : '_' ∈ (storageFilename now originalname).data := by
    rw [storageFilename_data]
    simp
  refine ⟨?_, ?_, ?_, ?_⟩
  · intro h
    rw [h] at hmem
    simp at hmem
  · intro h
    rw [h] at hmem
    revert hmem
    decide
  · intro h
    rw [h] at hmem
    revert hmem
    decide
  · rw [storageFilename_data]
    intro hm
    rcases List.mem_append.1 hm with h | h
    · exact basenameChars_extname_no_slash _ h
    · rcases List.mem_cons.1 h with h1 | h1
      · exact absurd h1 (by decide)
      · rcases List.mem_append.1 h1 with h2 | h2
        · exact toString_no_slash now h2
        · exact extnameChars_no_slash _ h2

/-! ## The upload route -/

theorem pathJoin_child (dirname mid category name : String) (hm : mid ≠ "")
    (hc : OrdinarySegment category.data) (hn : OrdinarySegment name.data) :
    pathJoin [pathJoin [dirname, mid, category], name]
      = pathJoin [dirname, mid, category] ++ "/" ++ name := by
  have hmid : mid.data ≠ [] := by
    intro h
    apply hm
    apply String.ext
    simpa using h
  apply String.ext
  have h := joinChars_child dirname.data mid.data category.data name.data hmid hc hn
  simpa [pathJoin] using h

theorem childName_append (dir name : String) (hne : name.data ≠ [])
    (hslash : '/' ∉ name.data) : childName dir (dir ++ "/" ++ name) = some name := by
  have hdata : (dir ++ "/" ++ name).data = (dir.data ++ ['/']) ++ name.data := by
    simp
  unfold childName
  simp only [hdata, List.take_left', List.drop_left', true_and]
  rw [if_pos ⟨hne, hslash⟩]

theorem ordinary_of_validCategory (category : String) (h : category ∈ validCategories) :
    OrdinarySegment category.data := by
  simp only [validCategories, List.mem_cons, List.mem_singleton, List.not_mem_nil, or_false] at h
  unfold OrdinarySegment
  rcases h with h | h | h <;> subst h <;> decide

theorem ordinary_temp : OrdinarySegment "temp".data := by
  unfold OrdinarySegment
  decide

theorem fileFilter_of_mem (mimetype : String) (h : mimetype ∈ allowedMimeTypes) :
    fileFilter mimetype = .ok true := by
  simp [fileFilter, h]

theorem fileFilter_of_not_mem (mimetype : String) (h : mimetype ∉ allowedMimeTypes) :
    fileFilter mimetype = .error (.error "File type not allowed") := by
  simp [fileFilter, h]

theorem uploadSingle_staged (dirname : String) (now : Nat) (fs : Fs) (part : FilePart)
    (category : Option String)
    (hfield : part.fieldname = "filename")
    (hmime : part.mimetype ∈ allowedMimeTypes)
    (hsize : part.content.length ≤ fileSizeLimit) :
    uploadSingle dirname now fs ⟨some part, category⟩
      = ((storageDestination dirname fs).1.writeFile
            (pathJoin [pathJoin [dirname, "public", "temp"],
              storageFilename now part.originalname]) part.content,
          .ok (some ⟨part.originalname, part.mimetype, pathJoin [dirname, "public", "temp"],
            storageFilename now part.originalname,
            pathJoin [pathJoin [dirname, "public", "temp"],
              storageFilename now part.originalname],
            part.content.length⟩)) := by
  have hsz : ¬ (part.content.length > fileSizeLimit) := by omega
  simp [uploadSingle, hfield, fileFilter_of_mem _ hmime, hsz, storageDestination]

theorem storageDestination_files (dirname : String) (fs : Fs) :
    (storageDestination dirname fs).1.files = fs.files := by
  unfold storageDestination
  simp only
  split <;> rfl

theorem renameSync_of_head (fs : Fs) (src dst : String) (content : List Nat)
    (rest : List (String × List Nat)) (h : fs.files = (src, content) :: rest) :
    fs.renameSync src dst
      = .ok ⟨fs.dirs, (dst, content) :: fs.files.filter (fun g => g.1 ≠ src ∧ g.1 ≠ dst)⟩ := by
  unfold Fs.renameSync
  rw [h]
  simp

theorem ne_empty_of_validCategory (category : String) (h : category ∈ validCategories) :
    category ≠ "" := by
  intro he
  rw [he] at h
  revert h
  decide

theorem uploadHandler_valid (dirname : String) (fs : Fs) (file : StagedFile) (category : String)
    (content : List Nat) (rest : List (String × List Nat))
    (hcat : category ∈ validCategories) (hfiles : fs.files = (file.path, content) :: rest) :
    (uploadHandler dirname fs (some file) (some category)).2
        = ⟨200, .upload true "File uploaded successfully"
            ⟨file.originalname, file.filename, category, file.size, file.mimetype,
              "/" ++ category ++ "/" ++ file.filename⟩⟩
      ∧ (uploadHandler dirname fs (some file) (some category)).1.files
        = (pathJoin [pathJoin [dirname, "public", category], file.filename], content)
            :: fs.files.filter (fun g => g.1 ≠ file.path
                ∧ g.1 ≠ pathJoin [pathJoin [dirname, "public", category], file.filename]) := by
  have hc : validCategories.contains category = true := by
    simpa using hcat
  have hmk : ∀ dir : String,
      (if (!fs.existsSync dir) = true then fs.mkdirSync dir else fs).files = fs.files := by
    intro dir
    split <;> rfl
  have hren := renameSync_of_head
    (if (!fs.existsSync (pathJoin [dirname, "public", category])) = true
      then fs.mkdirSync (pathJoin [dirname, "public", category]) else fs)
    file.path (pathJoin [pathJoin [dirname, "public", category], file.filename]) content rest
    (by rw [hmk, hfiles])
  unfold uploadHandler
  simp only [truthy_some_of_ne (ne_empty_of_validCategory category hcat), hc, Option.getD_some,
    Bool.not_true, Bool.or_self, Bool.false_eq_true, if_false, hren, hmk]
  exact ⟨trivial, trivial⟩

theorem postUpload_accepted (dirname : String) (ts : Nat) (fs : Fs) (part : FilePart)
    (category : String)
    (hfield : part.fieldname = "filename")
    (hmime : part.mimetype ∈ allowedMimeTypes)
    (hsize : part.content.length ≤ fileSizeLimit)
    (hcat : category ∈ validCategories) :
    (postUpload dirname ts fs ⟨some part, some category⟩).2
      = ⟨200, .upload true "File uploaded successfully"
          ⟨part.originalname, storageFilename ts part.originalname, category,
            part.content.length, part.mimetype,
            "/" ++ category ++ "/" ++ storageFilename ts part.originalname⟩⟩ := by
  have hstage := uploadSingle_staged dirname ts fs part (some category) hfield hmime hsize
  have hpost : postUpload dirname ts fs ⟨some part, some category⟩
      = uploadHandler dirname
          ((storageDestination dirname fs).1.writeFile
            (pathJoin [pathJoin [dirname, "public", "temp"],
              storageFilename ts part.originalname]) part.content)
          (some ⟨part.originalname, part.mimetype, pathJoin [dirname, "public", "temp"],
            storageFilename ts part.originalname,
            pathJoin [pathJoin [dirname, "public", "temp"],
              storageFilename ts part.originalname],
            part.content.length⟩) (some category) := by
    unfold postUpload
    rw [hstage]
  have hresp := (uploadHandler_valid dirname
    ((storageDestination dirname fs).1.writeFile
      (pathJoin [pathJoin [dirname, "public", "temp"],
        storageFilename ts part.originalname]) part.content)
    ⟨part.originalname, part.mimetype, pathJoin [dirname, "public", "temp"],
      storageFilename ts part.originalname,
      pathJoin [pathJoin [dirname, "public", "temp"],
        storageFilename ts part.originalname],
      part.content.length⟩ category part.content _ hcat rfl).1
  rw [← hpost] at hresp
  exact hresp

theorem postUpload_invalid_category (dirname : String) (ts : Nat) (fs : Fs)
    (part : FilePart) (category : Option String)
    (hfield : part.fieldname = "filename")
    (hmime : part.mimetype ∈ allowedMimeTypes)
    (hsize : part.content.length ≤ fileSizeLimit)
    (hcat : ∀ c, category = some c → c ∉ validCategories) :
    postUpload dirname ts fs ⟨some part, category⟩
      = ((storageDestination dirname fs).1.writeFile
            (pathJoin [pathJoin [dirname, "public", "temp"],
              storageFilename ts part.originalname]) part.content, noCategorySelected) := by
  have hstage := uploadSingle_staged dirname ts fs part category hfield hmime hsize
  have hguard : (!truthy category || !validCategories.contains (category.getD "")) = true := by
    cases category with
    | none => simp [truthy]
    | some c =>
      have : validCategories.contains c = false := by
        simpa using hcat c rfl
      rw [Option.getD_some, this]
      simp
  unfold postUpload
  rw [hstage]
  simp only [uploadHandler, hguard, if_true]

theorem postUpload_status_of_not_staged (dirname : String) (ts : Nat) (fs : Fs)
    (req : UploadRequest)
    (h : req.file = none ∨ ∃ part, req.file = some part
      ∧ (part.fieldname ≠ "filename" ∨ part.mimetype ∉ allowedMimeTypes
          ∨ ¬ part.content.length ≤ fileSizeLimit)) :
    (postUpload dirname ts fs req).2.status ≠ 200 := by
  rcases h with h | ⟨part, h, hbad⟩
  · simp [postUpload, uploadSingle, h, uploadHandler, noFileSelected]
  · by_cases hfield : part.fieldname = "filename"
    · by_cases hmime : part.mimetype ∈ allowedMimeTypes
      · have hsize : part.content.length > fileSizeLimit := by
          rcases hbad with hb | hb | hb
          · exact absurd hfield hb
          · exact absurd hmime hb
          · omega
        simp [postUpload, uploadSingle, h, hfield, fileFilter_of_mem _ hmime, hsize,
          errorMiddleware]
      · simp [postUpload, uploadSingle, h, hfield, fileFilter_of_not_mem _ hmime,
          errorMiddleware]
    · simp [postUpload, uploadSingle, h, hfield, errorMiddleware]

/-- C7: for every successful upload (response status 200), the request carries
a file part with a declared name `n` and a category `c` among units, lessons and
tests, and the response is the success body whose assigned filename is
`base(n) + "_" + ts + extension(n)`, with `ts` the ingestion timestamp in
milliseconds, and whose url is `"/" + c + "/" + assignedName`; for `notes.txt`
in `units` the url is `/units/notes_<ts>.txt`. -/
theorem upload_assigned_name_and_url (dirname : String) (ts : Nat) (fs : Fs)
    (req : UploadRequest)
    (hsuccess : (postUpload dirname ts fs req).2.status = 200) :
    ∃ part category info,
      req.file = some part ∧ req.category = some category ∧ category ∈ validCategories
        ∧ (postUpload dirname ts fs req).2
            = ⟨200, .upload true "File uploaded successfully" info⟩
        ∧ info.filename
            = basename part.originalname (extname part.originalname) ++ "_" ++ toString ts
                ++ extname part.originalname
        ∧ info.category = category
        ∧ info.url = "/" ++ category ++ "/" ++ info.filename
        ∧ (part.originalname = "notes.txt" → category = "units" →
            info.url = "/units/notes_" ++ toString ts ++ ".txt") := by
  cases req with
  | mk file category =>
    cases file with
    | none => exact absurd hsuccess (postUpload_status_of_not_staged _ _ _ _ (Or.inl rfl))
    | some part =>
      by_cases hfield : part.fieldname = "filename"
      swap
      · exact absurd hsuccess
          (postUpload_status_of_not_staged _ _ _ _ (Or.inr ⟨part, rfl, Or.inl hfield⟩))
      by_cases hmime : part.mimetype ∈ allowedMimeTypes
      swap
      · exact absurd hsuccess
          (postUpload_status_of_not_staged _ _ _ _ (Or.inr ⟨part, rfl, Or.inr (Or.inl hmime)⟩))
      by_cases hsize : part.content.length ≤ fileSizeLimit
      swap
      · exact absurd hsuccess
          (postUpload_status_of_not_staged _ _ _ _ (Or.inr ⟨part, rfl, Or.inr (Or.inr hsize)⟩))
      by_cases hcat : ∀ c, category = some c → c ∉ validCategories
      · rw [postUpload_invalid_category dirname ts fs part category hfield hmime hsize hcat]
          at hsuccess
        simp [noCategorySelected] at hsuccess
      · have hex : ∃ c, category = some c ∧ c ∈ validCategories := by
          by_contra hno
          apply hcat
          intro c hc hv
          exact hno ⟨c, hc, hv⟩
        obtain ⟨c, hc, hv⟩ := hex
        subst hc
        have hresp := postUpload_accepted dirname ts fs part c hfield hmime hsize hv
        refine ⟨part, c, _, rfl, rfl, hv, hresp, rfl, rfl, rfl, ?_⟩
        intro hname hunits
        show "/" ++ c ++ "/" ++ storageFilename ts part.originalname
          = "/units/notes_" ++ toString ts ++ ".txt"
        rw [hname, hunits]
        have h1 : extname "notes.txt" = ".txt" := by decide
        have h2 : basename "notes.txt" ".txt" ++ "_" = "notes_" := by decide
        have h3 : "/" ++ "units" ++ "/" ++ "notes_" = "/units/notes_" := by decide
        unfold storageFilename
        simp only []
        rw [h1, h2, ← h3]
        simp only [String.append_assoc]

theorem upload_assigned_name_and_url_witness :
    ∃ part category info,
      (⟨some ⟨"filename", "notes.txt", "text/plain", [104, 101, 108, 108, 111]⟩,
          some "units"⟩ : UploadRequest).file = some part
        ∧ (⟨some ⟨"filename", "notes.txt", "text/plain", [104, 101, 108, 108, 111]⟩,
          some "units"⟩ : UploadRequest).category = some category
        ∧ category ∈ validCategories
        ∧ (postUpload "/srv/app" 1700000000000 ⟨[], []⟩
            ⟨some ⟨"filename", "notes.txt", "text/plain", [104, 101, 108, 108, 111]⟩,
              some "units"⟩).2
            = ⟨200, .upload true "File uploaded successfully" info⟩
        ∧ info.filename
            = basename part.originalname (extname part.originalname) ++ "_"
                ++ toString 1700000000000 ++ extname part.originalname
        ∧ info.category = category
        ∧ info.url = "/" ++ category ++ "/" ++ info.filename
        ∧ (part.originalname = "notes.txt" → category = "units" →
            info.url = "/units/notes_" ++ toString 1700000000000 ++ ".txt") :=
  upload_assigned_name_and_url "/srv/app" 1700000000000 ⟨[], []⟩
    ⟨some ⟨"filename", "notes.txt", "text/plain", [104, 101, 108, 108, 111]⟩, some "units"⟩
    (by decide)

theorem ne_of_data_ne {a b : String} (h : a.data ≠ b.data) : a ≠ b := by
  intro e
  exact h (by rw [e])

/-- C8: for every declared file name and every valid category, the assigned
filename contains no path separator and is neither `.` nor `..` (nor empty), so
the final path computed for relocation, the join of the category directory
`public/<category>` and the assigned name, is that directory followed by `/`
and the assigned name: a direct child of the category directory. -/
theorem final_path_is_direct_child (dirname originalname : String) (ts : Nat)
    (category : String) (hcat : category ∈ validCategories) :
    '/' ∉ (storageFilename ts originalname).data
      ∧ storageFilename ts originalname ≠ "."
      ∧ storageFilename ts originalname ≠ ".."
      ∧ storageFilename ts originalname ≠ ""
      ∧ pathJoin [pathJoin [dirname, "public", category], storageFilename ts originalname]
          = pathJoin [dirname, "public", category] ++ "/" ++ storageFilename ts originalname
      ∧ childName (pathJoin [dirname, "public", category])
          (pathJoin [pathJoin [dirname, "public", category], storageFilename ts originalname])
          = some (storageFilename ts originalname) := by
  have hn := storageFilename_ordinary ts originalname
  have hc := ordinary_of_validCategory category hcat
  have hjoin := pathJoin_child dirname "public" category (storageFilename ts originalname)
    (by decide) hc hn
  refine ⟨hn.2.2.2, ne_of_data_ne hn.2.1, ne_of_data_ne hn.2.2.1, ne_of_data_ne hn.1, hjoin, ?_⟩
  rw [hjoin]
  exact childName_append _ _ hn.1 hn.2.2.2

theorem final_path_is_direct_child_witness :
    '/' ∉ (storageFilename 1700000000000 "../../etc/.passwd").data
      ∧ storageFilename 1700000000000 "../../etc/.passwd" ≠ "."
      ∧ storageFilename 1700000000000 "../../etc/.passwd" ≠ ".."
      ∧ storageFilename 1700000000000 "../../etc/.passwd" ≠ ""
      ∧ pathJoin [pathJoin ["/srv/app", "public", "tests"],
            storageFilename 1700000000000 "../../etc/.passwd"]
          = pathJoin ["/srv/app", "public", "tests"] ++ "/"
              ++ storageFilename 1700000000000 "../../etc/.passwd"
      ∧ childName (pathJoin ["/srv/app", "public", "tests"])
          (pathJoin [pathJoin ["/srv/app", "public", "tests"],
            storageFilename 1700000000000 "../../etc/.passwd"])
          = some (storageFilename 1700000000000 "../../etc/.passwd") :=
  final_path_is_direct_child "/srv/app" "../../etc/.passwd" 1700000000000 "tests" (by decide)

/-- C1 as stated fails: an upload of `notes.txt` with the category `homework`
is answered with the invalid-category error, and the temp directory, empty
before the request, holds the staged file `notes_1700000000000.txt` after it. -/
theorem invalid_category_leaves_staged_file :
    (postUpload "/srv/app" 1700000000000 ⟨[], []⟩
        ⟨some ⟨"filename", "notes.txt", "text/plain", [104, 101, 108, 108, 111]⟩,
          some "homework"⟩).2
        = ⟨400, .error false "No category was selected"⟩
      ∧ Fs.readdir ⟨[], []⟩ "/srv/app/public/temp" = []
      ∧ (postUpload "/srv/app" 1700000000000 ⟨[], []⟩
          ⟨some ⟨"filename", "notes.txt", "text/plain", [104, 101, 108, 108, 111]⟩,
            some "homework"⟩).1.readdir "/srv/app/public/temp"
        = ["notes_1700000000000.txt"] := by
  decide

/-- C1, amended: for every upload request in which a file was staged (a part in
the field `filename` with an allowed type and a size within the limit) and the
`category` field is missing or not one of units, lessons, tests, the upload
handler answers with the invalid-category error (HTTP 400, success false); the
staged temporary file is not removed: it stays in the temp directory under its
assigned name, and no other file is created, changed or removed. -/
theorem invalid_category_keeps_staged_file (dirname : String) (ts : Nat) (fs : Fs)
    (part : FilePart) (category : Option String)
    (hfield : part.fieldname = "filename")
    (hmime : part.mimetype ∈ allowedMimeTypes)
    (hsize : part.content.length ≤ fileSizeLimit)
    (hcat : ∀ c, category = some c → c ∉ validCategories) :
    (postUpload dirname ts fs ⟨some part, category⟩).2
        = ⟨400, .error false "No category was selected"⟩
      ∧ (postUpload dirname ts fs ⟨some part, category⟩).1.files
        = (pathJoin [dirname, "public", "temp"] ++ "/" ++ storageFilename ts part.originalname,
            part.content)
          :: fs.files.filter (fun f => f.1 ≠
              pathJoin [dirname, "public", "temp"] ++ "/"
                ++ storageFilename ts part.originalname)
      ∧ storageFilename ts part.originalname
          ∈ (postUpload dirname ts fs ⟨some part, category⟩).1.readdir
              (pathJoin [dirname, "public", "temp"]) := by
  have hn := storageFilename_ordinary ts part.originalname
  have hjoin := pathJoin_child dirname "public" "temp" (storageFilename ts part.originalname)
    (by decide) ordinary_temp hn
  rw [postUpload_invalid_category dirname ts fs part category hfield hmime hsize hcat, hjoin]
  refine ⟨rfl, ?_, ?_⟩
  · simp only [Fs.writeFile, storageDestination_files]
  · simp only [Fs.readdir, Fs.writeFile, List.filterMap_cons,
      childName_append _ _ hn.1 hn.2.2.2]
    exact List.mem_cons_self _ _

theorem invalid_category_keeps_staged_file_witness :
    (postUpload "/srv/app" 1700000000000 ⟨[], []⟩
        ⟨some ⟨"filename", "notes.txt", "text/plain", [104, 101, 108, 108, 111]⟩, none⟩).2
      = ⟨400, .error false "No category was selected"⟩ :=
  (invalid_category_keeps_staged_file "/srv/app" 1700000000000 ⟨[], []⟩
    ⟨"filename", "notes.txt", "text/plain", [104, 101, 108, 108, 111]⟩ none
    rfl (by decide) (by decide) (by simp)).1

/-- C2: a file whose declared MIME type is in the allow-list is accepted by
the file filter; a file whose type is not in the list is rejected by the filter
with a plain `Error`, which the error-handling middleware answers with 500
`Server error` (not 400), leaving the file system untouched. -/
theorem disallowed_type_answers_500 (dirname : String) (ts : Nat) (fs : Fs) (part : FilePart)
    (category : Option String) (hfield : part.fieldname = "filename") :
    (part.mimetype ∈ allowedMimeTypes → fileFilter part.mimetype = .ok true)
      ∧ (part.mimetype ∉ allowedMimeTypes →
          postUpload dirname ts fs ⟨some part, category⟩
            = (fs, ⟨500, .error false "Server error"⟩)) := by
  refine ⟨fileFilter_of_mem _, ?_⟩
  intro hmime
  simp [postUpload, uploadSingle, hfield, fileFilter_of_not_mem _ hmime, errorMiddleware]

theorem disallowed_type_answers_500_witness :
    postUpload "/srv/app" 1700000000000 ⟨[], []⟩
        ⟨some ⟨"filename", "page.html", "text/html", [60, 104, 62]⟩, some "units"⟩
      = (⟨[], []⟩, ⟨500, .error false "Server error"⟩) :=
  (disallowed_type_answers_500 "/srv/app" 1700000000000 ⟨[], []⟩
    ⟨"filename", "page.html", "text/html", [60, 104, 62]⟩ (some "units") rfl).2 (by decide)

end MyWebsite
